import Mathlib

/-!
Verification of the Lucene-style query compiler of the `magic` repository
(`storage/search/lucene`): the lexer (`lexer.go`), the guarded recursive-descent
parser and its built-in SQL / DynamoDB-PartiQL / map compilers (`parser.go`),
and the PostgreSQL JSONB driver built on go-lucene expressions (`driver.go`
and its extended variant).

Modelling conventions:
* Go strings are modelled as `List Char` at the lexer interface (the Go code
  indexes bytes; the queries of interest are ASCII, where bytes and characters
  coincide) and as Lean `String` for token values and SQL fragments.
* Mutable parser state (`Parser.current/peek/termCount` and the lexer cursor)
  becomes an explicit state type `PState` threaded by a state monad `PM` whose
  results also keep the state on error, mirroring Go methods on `*Parser`.
* Go `error` values become a dedicated `PErr` type; distinct Go error messages
  map to distinct constructors (payloads keep the measured values).
* Recursion of the recursive-descent parser is bounded by an explicit fuel
  argument; running out of fuel yields the artificial error `PErr.outOfFuel`
  (the Go code's recursion is bounded in practice by the depth guard).
* Token source positions are dropped: they only decorate Go error messages.
-/

set_option linter.unusedVariables false
set_option linter.unreachableTactic false
set_option linter.unnecessarySeqFocus false
set_option linter.unusedTactic false

namespace MagicLucene

/-- Single-quote character, used to build the JSONB accessor `base->>'sub'`. -/
def sq : String := (Char.ofNat 39).toString

/-- `strings.Join` (Go): join a list of strings with a separator. -/
def sepJoin (sep : String) : List String → String
  | [] => ""
  | [x] => x
  | x :: y :: rest => x ++ sep ++ sepJoin sep (y :: rest)

/-- `strings.Contains(s, string(c))` for a single character. -/
def strHasChar (s : String) (c : Char) : Bool := s.toList.contains c

/-- Is `pat` a contiguous infix of the list? -/
def listIsInfix (pat : List Char) : List Char → Bool
  | [] => pat.isEmpty
  | c :: rest => pat.isPrefixOf (c :: rest) || listIsInfix pat rest

/-- `strings.Contains(s, pat)` (substring containment). -/
def strHasSub (s pat : String) : Bool := listIsInfix pat.toList s.toList

/-- `strings.HasPrefix`. -/
def strStarts (s p : String) : Bool := p.toList.isPrefixOf s.toList

/-- `strings.HasSuffix`. -/
def strEnds (s p : String) : Bool := p.toList.isSuffixOf s.toList

/-- `strings.TrimPrefix(v, "*")`: remove one leading `*` if present. -/
def trimPrefixStar (v : String) : String :=
  if strStarts v "*" then (v.toList.drop 1).asString else v

/-- `strings.TrimSuffix(v, "*")`: remove one trailing `*` if present. -/
def trimSuffixStar (v : String) : String :=
  if strEnds v "*" then (v.toList.take (v.toList.length - 1)).asString else v

/-- `strings.Trim(v, "*")`: remove all leading and trailing `*` characters. -/
def trimStars (v : String) : String :=
  (((v.toList.dropWhile (· == '*')).reverse.dropWhile (· == '*')).reverse).asString

/-- `strings.ReplaceAll(s, "*", "%")`. -/
def replaceStarPct (s : String) : String :=
  (s.toList.map (fun c => if c == '*' then '%' else c)).asString

/-- `strings.ReplaceAll(s, "?", "_")`. -/
def replaceQuestUnd (s : String) : String :=
  (s.toList.map (fun c => if c == '?' then '_' else c)).asString

/-- `fmt.Sscanf(s, "%d", &n)` on a number token: read the leading digit run. -/
def natOfDigits (s : String) : Nat :=
  (s.toList.takeWhile Char.isDigit).foldl (fun acc c => acc * 10 + (c.toNat - 48)) 0

/-- `strings.ToUpper`. -/
def upperStr (s : String) : String := (s.toList.map Char.toUpper).asString

/-- `strings.TrimSpace`: drop leading and trailing whitespace. -/
def trimSpaceL (s : List Char) : List Char :=
  ((s.dropWhile Char.isWhitespace).reverse.dropWhile Char.isWhitespace).reverse

/-! ## Lexer (`lexer.go`) -/

/-- `TokenType` from `lexer.go`. -/
inductive TokenType where
  | eof | errT | ident | str | num
  | andT | orT | notT
  | plus | minus | colon
  | lparen | rparen | lbracket | rbracket | lbrace | rbrace
  | toT | tilde | caret | wildcard
  deriving DecidableEq, Repr

/-- `Token` from `lexer.go` (source positions dropped). -/
structure Token where
  typ : TokenType
  value : String
  deriving DecidableEq, Repr

/-- The zero value of Go's `Token` struct (`TokenType` zero value is `TokenEOF`). -/
def zeroTok : Token := { typ := .eof, value := "" }

/-- `isSpecialChar` from `lexer.go`. -/
def isSpecialChar (ch : Char) : Bool :=
  ch == ':' || ch == '(' || ch == ')' || ch == '[' || ch == ']' ||
  ch == '\x7b' || ch == '\x7d' || ch == '+' || ch == '-' || ch == '!' ||
  ch == '~' || ch == '^' || ch == '"' || ch == '&' || ch == '|'

/-- Loop of `scanString` (after the opening quote): consume until an unescaped
closing quote, translating a backslash escape to the literal character. -/
def scanStringAux (acc : List Char) : List Char → Token × List Char
  | [] => ({ typ := .errT, value := "unterminated string" }, [])
  | '"' :: rest => ({ typ := .str, value := acc.reverse.asString }, rest)
  | '\\' :: [] => ({ typ := .errT, value := "unexpected end in string" }, [])
  | '\\' :: c :: rest => scanStringAux (c :: acc) rest
  | c :: rest => scanStringAux (c :: acc) rest

/-- `scanString` from `lexer.go`, starting at the opening quote. -/
def scanString : List Char → Token × List Char
  | '"' :: rest => scanStringAux [] rest
  | cs => ({ typ := .errT, value := "unterminated string" }, cs)

/-- `scanNumber` from `lexer.go`: digits, then optionally a single `.` or `-`
separator followed by digits (and further digits or the same separator). -/
def scanNumber (cs : List Char) : Token × List Char :=
  let (neg, cs1) : List Char × List Char :=
    match cs with
    | '-' :: r => (['-'], r)
    | _ => ([], cs)
  let (ds, cs2) := cs1.span Char.isDigit
  match cs2 with
  | sep :: d :: rest =>
    if (sep == '.' || sep == '-') && d.isDigit then
      let (ds2, cs3) := (d :: rest).span (fun c => c.isDigit || c == sep)
      ({ typ := .num, value := (neg ++ ds ++ [sep] ++ ds2).asString }, cs3)
    else
      ({ typ := .num, value := (neg ++ ds).asString }, sep :: d :: rest)
  | _ => ({ typ := .num, value := (neg ++ ds).asString }, cs2)

/-- Loop of `scanIdent`: consume until whitespace or a special character;
a backslash escapes the next character; `*` and `?` are accepted in-identifier. -/
def scanIdentAux (acc : List Char) : List Char → List Char × List Char
  | [] => (acc.reverse, [])
  | c :: rest =>
    if c.isWhitespace || isSpecialChar c then (acc.reverse, c :: rest)
    else if c == '\\' then
      match rest with
      | [] => (acc.reverse, [])
      | d :: rest2 => scanIdentAux (d :: acc) rest2
    else scanIdentAux (c :: acc) rest

/-- `scanIdent` from `lexer.go`, including case-insensitive keyword recognition. -/
def scanIdent (cs : List Char) : Token × List Char :=
  let (chars, rest) := scanIdentAux [] cs
  let s := chars.asString
  let tok : Token :=
    if upperStr s == "AND" then { typ := .andT, value := s }
    else if upperStr s == "OR" then { typ := .orT, value := s }
    else if upperStr s == "NOT" then { typ := .notT, value := s }
    else if upperStr s == "TO" then { typ := .toT, value := s }
    else { typ := .ident, value := s }
  (tok, rest)

/-- `Lexer.NextToken` from `lexer.go`, as a function from the remaining input
to the produced token and the rest of the input.
(The Go `default` branch also routes `'-'` followed by a digit to `scanNumber`;
that test is unreachable because `'-'` is already matched by its own case.) -/
def nextToken (input : List Char) : Token × List Char :=
  let cs := input.dropWhile Char.isWhitespace
  match cs with
  | [] => ({ typ := .eof, value := "" }, [])
  | c :: rest =>
    if c == '"' then scanString cs
    else if c == '+' then ({ typ := .plus, value := "+" }, rest)
    else if c == '-' then ({ typ := .minus, value := "-" }, rest)
    else if c == ':' then ({ typ := .colon, value := ":" }, rest)
    else if c == '(' then ({ typ := .lparen, value := "(" }, rest)
    else if c == ')' then ({ typ := .rparen, value := ")" }, rest)
    else if c == '[' then ({ typ := .lbracket, value := "[" }, rest)
    else if c == ']' then ({ typ := .rbracket, value := "]" }, rest)
    else if c == '\x7b' then ({ typ := .lbrace, value := (Char.ofNat 123).toString }, rest)
    else if c == '\x7d' then ({ typ := .rbrace, value := (Char.ofNat 125).toString }, rest)
    else if c == '~' then ({ typ := .tilde, value := "~" }, rest)
    else if c == '^' then ({ typ := .caret, value := "^" }, rest)
    else if c == '*' || c == '?' then ({ typ := .wildcard, value := c.toString }, rest)
    else if c == '&' then
      match rest with
      | '&' :: r2 => ({ typ := .andT, value := "&&" }, r2)
      | _ => ({ typ := .ident, value := "&" }, rest)
    else if c == '|' then
      match rest with
      | '|' :: r2 => ({ typ := .orT, value := "||" }, r2)
      | _ => ({ typ := .ident, value := "|" }, rest)
    else if c == '!' then ({ typ := .notT, value := "!" }, rest)
    else if c == '\\' then
      match rest with
      | [] => ({ typ := .errT, value := "unexpected end after backslash" }, [])
      | d :: r2 => ({ typ := .ident, value := d.toString }, r2)
    else if c.isDigit then scanNumber cs
    else scanIdent cs

/-! ## AST data model (`parser.go`) -/

/-- `NodeType` from `parser.go`. Only `term`, `wildcard` and `logical` are ever
stored in constructed nodes; the remaining values exist in the Go enum. -/
inductive NodeT where
  | term | wildcard | logical | phrase | range | fuzzy | prox
  deriving DecidableEq, Repr

/-- `MatchType` from `parser.go`. -/
inductive MatchT where
  | exact | startsWith | endsWith | contains
  deriving DecidableEq, Repr

/-- `Node` from `parser.go`. `operator` and `comparison` are Go string-typed
(`LogicalOperator`, `ComparisonOperator`); children are `[]*Node`, whose
entries may be nil, hence `List (Option Node)`. -/
inductive Node where
  | mk (typ : NodeT) (field : String) (value : String)
       (operator : String) (comparison : String)
       (children : List (Option Node)) (negate : Bool) (matchType : MatchT)
  deriving Repr

def Node.typ : Node → NodeT
  | .mk t _ _ _ _ _ _ _ => t

def Node.field : Node → String
  | .mk _ f _ _ _ _ _ _ => f

def Node.value : Node → String
  | .mk _ _ v _ _ _ _ _ => v

def Node.operator : Node → String
  | .mk _ _ _ o _ _ _ _ => o

def Node.comparison : Node → String
  | .mk _ _ _ _ c _ _ _ => c

def Node.children : Node → List (Option Node)
  | .mk _ _ _ _ _ cs _ _ => cs

def Node.negate : Node → Bool
  | .mk _ _ _ _ _ _ n _ => n

def Node.matchType : Node → MatchT
  | .mk _ _ _ _ _ _ _ m => m

/-- `RangeNode` from `parser.go`. -/
structure RangeNode where
  field : String
  min : String
  max : String
  inclusive : Bool
  deriving DecidableEq, Repr

/-- `FieldInfo` from `parser.go`. -/
structure FieldInfo where
  name : String
  isJSONB : Bool
  deriving DecidableEq, Repr

/-- `EnhancedNode` from `parser.go`. The boost is kept as the raw numeric
literal text (empty when absent); the code only ever tests `boost > 0`,
modelled by `boostPos` below. -/
structure EnhancedNode where
  node : Option Node
  required : Bool := false
  prohibited : Bool := false
  boost : String := ""
  proximity : Nat := 0
  fuzzy : Nat := 0
  isPhrase : Bool := false
  rangeInfo : Option RangeNode := none
  deriving Repr

/-- `boost > 0` on the raw literal: a digit/separator literal parsed by
`Sscanf("%f")` is positive exactly when it has a nonzero digit. -/
def boostPos (s : String) : Bool :=
  s.toList.any (fun c => c.isDigit && c != '0')

/-- Go `error` values of the parser and compilers; each constructor is one
distinct Go error message (payloads carry the measured values). -/
inductive PErr where
  | queryTooLong (len max : Nat)
  | tooDeep (depth max : Nat)
  | tooManyTerms (count max : Nat)
  | unexpectedToken (msg : String)
  | noDefaultFields
  | unsupportedNodeType
  | nilCompareErr
  | nilValueErr
  | boostUnsupported
  | fuzzyShape
  | bothBoundsWild
  | invalidRangeStructure
  | unexpectedColumnType
  | binaryOperandMissing
  | unsupportedOperator
  | externalBase
  | outOfFuel
  deriving DecidableEq, Repr

/-- `Parser.formatFieldName` from `parser.go`: rewrite `base.sub` to the JSONB
accessor `base->>'sub'` when `base` is a registered JSONB field. The Go code
uses `strings.SplitN(fieldName, ".", 2)`: split at the first dot only. -/
def formatFieldName (fields : List FieldInfo) (fieldName : String) : String :=
  match fieldName.toList.span (· != '.') with
  | (base, '.' :: sub) =>
    let baseField := base.asString
    let subField := sub.asString
    if fields.any (fun f => f.isJSONB && f.name == baseField) then
      baseField ++ "->>" ++ sq ++ subField ++ sq
    else fieldName
  | _ => fieldName

/-- `wildcardToPattern` from `parser.go`. -/
def wildcardToPattern (value : String) (matchType : MatchT) : String :=
  match matchType with
  | .startsWith => value ++ "%"
  | .endsWith => "%" ++ value
  | .contains => "%" ++ value ++ "%"
  | .exact => value

/-- Wildcard classification of a `field:value` term value
(`parser.go`, `parseTerm` lines 552-572): node type, match type
and processed value. -/
def classifyTermValue (value : String) : NodeT × MatchT × String :=
  if strHasChar value '*' || strHasChar value '?' then
    if strStarts value "*" && strEnds value "*" then
      (.wildcard, .contains, trimStars value)
    else if strStarts value "*" then
      (.wildcard, .endsWith, trimPrefixStar value)
    else if strEnds value "*" then
      (.wildcard, .startsWith, trimSuffixStar value)
    else
      (.wildcard, .contains, replaceQuestUnd (replaceStarPct value))
  else (.term, .exact, value)

/-- Wildcard classification used by `createImplicitSearch` (`parser.go`,
lines 686-708): identical cases, except that a value without wildcards is
still searched as a contains-wildcard. -/
def classifyImplicitValue (term : String) : NodeT × MatchT × String :=
  if strHasChar term '*' || strHasChar term '?' then
    if strStarts term "*" && strEnds term "*" then
      (.wildcard, .contains, trimStars term)
    else if strStarts term "*" then
      (.wildcard, .endsWith, trimPrefixStar term)
    else if strEnds term "*" then
      (.wildcard, .startsWith, trimSuffixStar term)
    else
      (.wildcard, .contains, replaceQuestUnd (replaceStarPct term))
  else (.wildcard, .contains, term)

/-! ## Built-in SQL compiler (`parser.go`) -/

theorem Node.sizeOf_children_lt (n : Node) : sizeOf n.children < sizeOf n := by
  cases n with
  | mk t f v op cmp cs neg mt =>
    simp only [Node.children, Node.mk.sizeOf_spec]
    omega

mutual

/-- `Parser.enhancedNodeToSQLInternal` from `parser.go`: render a plain node
to a fragment with `?` placeholders and the ordered parameter list.
(The Go `NodeTerm` case tests `strings.Contains(node.Field, "->>")` but both
branches return the same string; the test is kept.) -/
def nodeToSQLInternal : Option Node → Except PErr (String × List String)
  | none => .ok ("", [])
  | some n =>
    match n.typ with
    | .term =>
      let op := if n.comparison == "" then "=" else n.comparison
      if strHasSub n.field "->>" then
        .ok (n.field ++ " " ++ op ++ " ?", [n.value])
      else
        .ok (n.field ++ " " ++ op ++ " ?", [n.value])
    | .wildcard =>
      let pattern := wildcardToPattern n.value n.matchType
      if strHasSub n.field "->>" then
        .ok (n.field ++ " ILIKE ?", [pattern])
      else
        .ok (n.field ++ "::text ILIKE ?", [pattern])
    | .logical =>
      match childrenToSQL n.children with
      | .error e => .error e
      | .ok (parts, params) =>
        if parts.isEmpty then .ok ("", [])
        else if n.operator == "NOT" then
          match parts with
          | [p] => .ok ("NOT (" ++ p ++ ")", params)
          | _ =>
            .ok ("(" ++ sepJoin " AND " (parts.map (fun p => "NOT (" ++ p ++ ")")) ++ ")",
                 params)
        else
          match parts with
          | [p] => .ok (p, params)
          | _ =>
            let operator := if n.negate then "NOT " ++ n.operator else n.operator
            .ok ("(" ++ sepJoin (" " ++ operator ++ " ") parts ++ ")", params)
    | _ => .error .unsupportedNodeType
termination_by c => sizeOf c
decreasing_by
  all_goals simp_wf
  have := Node.sizeOf_children_lt n
  omega

/-- The child loop of the `NodeLogical` case: collect the fragments and
parameters of the children in order, skipping empty fragments. -/
def childrenToSQL : List (Option Node) → Except PErr (List String × List String)
  | [] => .ok ([], [])
  | c :: rest =>
    match nodeToSQLInternal c with
    | .error e => .error e
    | .ok (s, ps) =>
      match childrenToSQL rest with
      | .error e => .error e
      | .ok (parts, params) =>
        if s == "" then .ok (parts, params)
        else .ok (s :: parts, ps ++ params)
termination_by cs => sizeOf cs
decreasing_by
  all_goals simp_wf <;> omega

end

/-- `Parser.rangeToSQL` from `parser.go`: render a range; a `*` bound
contributes no condition, and zero conditions yield an empty fragment. -/
def rangeToSQL (ri : RangeNode) : Except PErr (String × List String) :=
  let condsMin : List String × List String :=
    if ri.min != "*" then
      (if ri.inclusive then [ri.field ++ " >= ?"] else [ri.field ++ " > ?"], [ri.min])
    else ([], [])
  let conds : List String × List String :=
    if ri.max != "*" then
      (condsMin.1 ++ (if ri.inclusive then [ri.field ++ " <= ?"] else [ri.field ++ " < ?"]),
       condsMin.2 ++ [ri.max])
    else condsMin
  if conds.1.isEmpty then .ok ("", [])
  else .ok (sepJoin " AND " conds.1, conds.2)

/-- The in-place rewrite performed by the fuzzy approximation in
`enhancedNodeToSQL`: `node.Node.Type = NodeWildcard; node.Node.MatchType = matchContains`. -/
def setWildContains : Node → Node
  | .mk _ f v op cmp cs neg _ => .mk .wildcard f v op cmp cs neg .contains

/-- `Parser.enhancedNodeToSQL` from `parser.go`. The Go function mutates the
node in place for the fuzzy approximation; the returned pair carries the
post-call state of the tree alongside the result. -/
def enhancedNodeToSQL (en? : Option EnhancedNode) :
    Except PErr (String × List String) × Option EnhancedNode :=
  match en? with
  | none => (.ok ("", []), none)
  | some en =>
    match en.node with
    | none => (.ok ("", []), some en)
    | some n =>
      match en.rangeInfo with
      | some ri => (rangeToSQL ri, some en)
      | none =>
        if en.prohibited then
          (match nodeToSQLInternal (some n) with
           | .error e => .error e
           | .ok (s, ps) => .ok ("NOT (" ++ s ++ ")", ps), some en)
        else
          let en2 :=
            if 0 < en.fuzzy && n.typ == .term then
              { en with node := some (setWildContains n) }
            else en
          (nodeToSQLInternal en2.node, some en2)

/-! ## Built-in DynamoDB PartiQL compiler (`parser.go`) -/

mutual

/-- `Parser.enhancedNodeToDynamoDBPartiQLInternal` from `parser.go`. Every
emitted parameter is an `AttributeValueMemberS` string, modelled as `String`. -/
def nodeToPartiQLInternal : Option Node → Except PErr (String × List String)
  | none => .ok ("", [])
  | some n =>
    match n.typ with
    | .term =>
      let op := if n.comparison == "" then "=" else n.comparison
      .ok (n.field ++ " " ++ op ++ " ?", [n.value])
    | .wildcard =>
      match n.matchType with
      | .startsWith => .ok ("begins_with(" ++ n.field ++ ", ?)", [n.value])
      | .endsWith => .ok ("contains(" ++ n.field ++ ", ?)", [n.value])
      | .contains => .ok ("contains(" ++ n.field ++ ", ?)", [n.value])
      | .exact => .ok (n.field ++ " = ?", [n.value])
    | .logical =>
      match childrenToPartiQL n.children with
      | .error e => .error e
      | .ok (parts, params) =>
        if parts.isEmpty then .ok ("", [])
        else if n.operator == "NOT" then
          match parts with
          | [p] => .ok ("NOT (" ++ p ++ ")", params)
          | _ =>
            .ok ("(" ++ sepJoin " AND " (parts.map (fun p => "NOT (" ++ p ++ ")")) ++ ")",
                 params)
        else
          match parts with
          | [p] => .ok (p, params)
          | _ =>
            let operator := if n.negate then "NOT " ++ n.operator else n.operator
            .ok ("(" ++ sepJoin (" " ++ operator ++ " ") parts ++ ")", params)
    | _ => .error .unsupportedNodeType
termination_by c => sizeOf c
decreasing_by
  all_goals simp_wf
  have := Node.sizeOf_children_lt n
  omega

/-- Child loop of the `NodeLogical` case of the PartiQL renderer. -/
def childrenToPartiQL : List (Option Node) → Except PErr (List String × List String)
  | [] => .ok ([], [])
  | c :: rest =>
    match nodeToPartiQLInternal c with
    | .error e => .error e
    | .ok (s, ps) =>
      match childrenToPartiQL rest with
      | .error e => .error e
      | .ok (parts, params) =>
        if s == "" then .ok (parts, params)
        else .ok (s :: parts, ps ++ params)
termination_by cs => sizeOf cs
decreasing_by
  all_goals simp_wf <;> omega

end

/-- `Parser.rangeToDynamoDBPartiQL` from `parser.go` (same shape as
`rangeToSQL`, parameters as attribute-value strings). -/
def rangeToPartiQL (ri : RangeNode) : Except PErr (String × List String) :=
  rangeToSQL ri

/-- `Parser.enhancedNodeToDynamoDBPartiQL` from `parser.go`, with the same
in-place fuzzy rewrite as the SQL path. -/
def enhancedNodeToPartiQL (en? : Option EnhancedNode) :
    Except PErr (String × List String) × Option EnhancedNode :=
  match en? with
  | none => (.ok ("", []), none)
  | some en =>
    match en.node with
    | none => (.ok ("", []), some en)
    | some n =>
      match en.rangeInfo with
      | some ri => (rangeToPartiQL ri, some en)
      | none =>
        if en.prohibited then
          (match nodeToPartiQLInternal (some n) with
           | .error e => .error e
           | .ok (s, ps) => .ok ("NOT (" ++ s ++ ")", ps), some en)
        else
          let en2 :=
            if 0 < en.fuzzy && n.typ == .term then
              { en with node := some (setWildContains n) }
            else en
          (nodeToPartiQLInternal en2.node, some en2)

/-! ## Parser state and monad (`parser.go`) -/

/-- The per-instance configuration of `Parser` (`parser.go`): the registered
fields and the three security limits, with the Go defaults. -/
structure PCtx where
  defaultFields : List FieldInfo
  maxQueryLength : Nat := 10000
  maxDepth : Nat := 20
  maxTerms : Nat := 100

/-- The mutable parse-time state of `Parser`: token lookahead, the lexer
cursor, and the term counter. -/
structure PState where
  current : Token
  peek : Token
  rest : List Char
  termCount : Nat

/-- State monad of the Go methods on `*Parser`: the state is kept on error,
mirroring the fact that Go returns leave the receiver's fields as they are. -/
def PM (α : Type) : Type := PState → Except PErr α × PState

/-- `pure` of the parser monad. -/
def purePM {α : Type} (a : α) : PM α := fun s => (.ok a, s)

/-- `bind` of the parser monad: sequential composition that propagates the
first error together with the state at the point of failure. -/
def bindPM {α β : Type} (m : PM α) (f : α → PM β) : PM β := fun s =>
  match m s with
  | (.ok a, s2) => f a s2
  | (.error e, s2) => (.error e, s2)

instance : Monad PM where
  pure := purePM
  bind := bindPM

/-- Return an error (Go `return nil, fmt.Errorf(...)`). -/
def throwP {α : Type} (e : PErr) : PM α := fun s => (.error e, s)

/-- Read `p.current`. -/
def getCur : PM Token := fun s => (.ok s.current, s)

/-- `Parser.advance`: `p.current = p.peek; p.peek = p.lexer.NextToken()`. -/
def advance : PM Unit := fun s =>
  let (tok, rest2) := nextToken s.rest
  (.ok (), { s with current := s.peek, peek := tok, rest := rest2 })

/-- The term-counter guard used by every leaf-producing rule:
`p.termCount++; if p.termCount > p.MaxTerms { return error }`. -/
def bumpTerm (ctx : PCtx) : PM Unit := fun s =>
  let c := s.termCount + 1
  if ctx.maxTerms < c then
    (.error (.tooManyTerms c ctx.maxTerms), { s with termCount := c })
  else (.ok (), { s with termCount := c })

/-! ## Lowering (`Parser.enhancedNodeToNode`, `parser.go`) -/

/-- `NOT` wrapper used by the prohibited lowering. -/
def notWrap (c : Option Node) : Node :=
  Node.mk .logical "" "" "NOT" "" [c] false .exact

/-- `Parser.enhancedNodeToNode` from `parser.go`: lower an enhanced node to a
plain node; a range becomes 0, 1 or 2 comparison leaves (`nil` for 0, ANDed
for 2; a 0-leaf range returns `nil` without the prohibited wrap), and a
prohibited node is wrapped in a logical `NOT`. -/
def enhancedNodeToNode (enode : Option EnhancedNode) : Option Node :=
  match enode with
  | none => none
  | some en =>
    match en.node with
    | none => none
    | some n0 =>
      match en.rangeInfo with
      | none =>
        if en.prohibited then some (notWrap (some n0)) else some n0
      | some ri =>
        let childrenMin : List (Option Node) :=
          if ri.min != "*" then
            [some (Node.mk .term ri.field ri.min ""
                    (if ri.inclusive then ">=" else ">") [] false .exact)]
          else []
        let children : List (Option Node) :=
          if ri.max != "*" then
            childrenMin ++
              [some (Node.mk .term ri.field ri.max ""
                      (if ri.inclusive then "<=" else "<") [] false .exact)]
          else childrenMin
        match children with
        | [] => none
        | [c] => if en.prohibited then some (notWrap c) else c
        | cs =>
          let nd := some (Node.mk .logical "" "" "AND" "" cs false .exact)
          if en.prohibited then some (notWrap nd) else nd

/-! ## Leaf rules (`parser.go`) -/

/-- `Parser.parsePhrase`: a quoted phrase with optional `~n` proximity and
`^n` boost; counts as exactly one term. -/
def parsePhrase (ctx : PCtx) : PM EnhancedNode := do
  bumpTerm ctx
  let t ← getCur
  let phrase := t.value
  advance
  let t2 ← getCur
  let prox ←
    if t2.typ == .tilde then do
      advance
      let t3 ← getCur
      if t3.typ == .num then do
        advance
        pure (natOfDigits t3.value)
      else pure 0
    else pure 0
  let t4 ← getCur
  let boost ←
    if t4.typ == .caret then do
      advance
      let t5 ← getCur
      if t5.typ == .num then do
        advance
        pure t5.value
      else pure ""
    else pure ""
  pure { node := some (Node.mk .term "" phrase "" "" [] false .exact),
         isPhrase := true, proximity := prox, boost := boost }

/-- `Parser.parseRange`: `[min TO max]` / `{min TO max}` with `*` accepted as
either bound; counts as exactly one term (the counter is bumped first). -/
def parseRange (ctx : PCtx) (field : String) : PM EnhancedNode := do
  bumpTerm ctx
  let t ← getCur
  let inclusive := t.typ == .lbracket
  advance
  let tmin ← getCur
  if tmin.typ != .ident && tmin.typ != .num && tmin.value != "*" then
    throwP (.unexpectedToken ("expected min value in range, got " ++ tmin.value))
  else pure ()
  let minv := tmin.value
  advance
  let tto ← getCur
  if tto.typ != .toT then
    throwP (.unexpectedToken ("expected TO in range query, got " ++ tto.value))
  else pure ()
  advance
  let tmax ← getCur
  if tmax.typ != .ident && tmax.typ != .num && tmax.value != "*" then
    throwP (.unexpectedToken ("expected max value in range, got " ++ tmax.value))
  else pure ()
  let maxv := tmax.value
  advance
  let expectedClose := if inclusive then TokenType.rbracket else TokenType.rbrace
  let tcl ← getCur
  if tcl.typ != expectedClose then
    throwP (.unexpectedToken "expected closing bracket/brace in range")
  else pure ()
  advance
  let tb ← getCur
  let boost ←
    if tb.typ == .caret then do
      advance
      let tb2 ← getCur
      if tb2.typ == .num then do
        advance
        pure tb2.value
      else pure ""
    else pure ""
  let formattedField := if field != "" then formatFieldName ctx.defaultFields field else field
  pure { node := some (Node.mk .term formattedField "" "" "" [] false .exact),
         rangeInfo := some ⟨formattedField, minv, maxv, inclusive⟩,
         boost := boost }

/-- One child of the implicit-search OR node (`createImplicitSearch` body). -/
def mkImplicitChild (ctx : PCtx) (term : String) (f : FieldInfo) : Node :=
  let formattedField := formatFieldName ctx.defaultFields f.name
  let (nt, mt, pv) := classifyImplicitValue term
  Node.mk nt formattedField pv "" "" [] false mt

/-- The field loop of `createImplicitSearch`: each default field consumes one
unit of the term budget, then contributes one child. -/
def implicitChildren (ctx : PCtx) (term : String) : List FieldInfo → PM (List (Option Node))
  | [] => pure []
  | f :: rest => do
    bumpTerm ctx
    let rest2 ← implicitChildren ctx term rest
    pure (some (mkImplicitChild ctx term f) :: rest2)

/-- `Parser.createImplicitSearch`: a bare term expands to a logical OR across
the default fields; zero default fields is a semantic error. -/
def createImplicitSearch (ctx : PCtx) (term : String) : PM EnhancedNode := do
  if ctx.defaultFields.isEmpty then throwP .noDefaultFields else pure ()
  let children ← implicitChildren ctx term ctx.defaultFields
  pure { node := some (Node.mk .logical "" "" "OR" "" children false .exact) }

/-- The value-building loop of `parseTerm` for values starting with a wildcard
token: keep appending identifier/wildcard tokens. Fuel-bounded (the Go loop is
bounded by the remaining input). -/
def valueLoop : Nat → String → PM String
  | 0, _ => throwP .outOfFuel
  | f + 1, value => do
    let t ← getCur
    if t.typ == .ident || t.typ == .wildcard then do
      advance
      valueLoop f (value ++ t.value)
    else pure value

/-- `Parser.parseTerm` from `parser.go`: a range, a `field:value` pair
(phrase, plain or wildcard value, with optional `~`/`^` modifiers), or an
implicit multi-field search. -/
def parseTerm (ctx : PCtx) (fuel : Nat) : PM EnhancedNode := do
  let t ← getCur
  if t.typ == .lbracket || t.typ == .lbrace then parseRange ctx ""
  else do
    if t.typ != .ident && t.typ != .num then
      throwP (.unexpectedToken ("expected identifier or number, got " ++ t.value))
    else pure ()
    let fieldOrValue := t.value
    advance
    let t2 ← getCur
    if t2.typ == .colon then do
      advance
      let t3 ← getCur
      if t3.typ == .lbracket || t3.typ == .lbrace then parseRange ctx fieldOrValue
      else if t3.typ == .str then do
        bumpTerm ctx
        let phrase := t3.value
        advance
        let t4 ← getCur
        let prox ←
          if t4.typ == .tilde then do
            advance
            let t5 ← getCur
            if t5.typ == .num then do
              advance
              pure (natOfDigits t5.value)
            else pure 0
          else pure 0
        let t6 ← getCur
        let boost ←
          if t6.typ == .caret then do
            advance
            let t7 ← getCur
            if t7.typ == .num then do
              advance
              pure t7.value
            else pure ""
          else pure ""
        let formattedField := formatFieldName ctx.defaultFields fieldOrValue
        pure { node := some (Node.mk .term formattedField phrase "" "" [] false .exact),
               isPhrase := true, proximity := prox, boost := boost }
      else do
        if t3.typ != .ident && t3.typ != .num && t3.typ != .wildcard then
          throwP (.unexpectedToken ("expected value after colon, got " ++ t3.value))
        else pure ()
        bumpTerm ctx
        let value ←
          if t3.typ == .wildcard then do
            advance
            valueLoop fuel t3.value
          else do
            advance
            pure t3.value
        let t8 ← getCur
        let fz ←
          if t8.typ == .tilde then do
            advance
            let t9 ← getCur
            if t9.typ == .num then do
              advance
              pure (natOfDigits t9.value)
            else pure 2
          else pure 0
        let t10 ← getCur
        let boost ←
          if t10.typ == .caret then do
            advance
            let t11 ← getCur
            if t11.typ == .num then do
              advance
              pure t11.value
            else pure ""
          else pure ""
        let formattedField := formatFieldName ctx.defaultFields fieldOrValue
        let (nt, mt, pv) := classifyTermValue value
        pure { node := some (Node.mk nt formattedField pv "" "" [] false mt),
               fuzzy := fz, boost := boost }
    else createImplicitSearch ctx fieldOrValue

/-! ## Recursive descent (`parser.go`), fuel-bounded -/

/-- `Parser.isImplicitAnd`: the next token can start a new primary. -/
def isImplicitAndTok (t : Token) : Bool :=
  t.typ == .ident || t.typ == .str || t.typ == .plus || t.typ == .minus ||
  t.typ == .notT || t.typ == .lparen

mutual

/-- `Parser.parseExpressionWithDepth`: the depth guard, then OR parsing. -/
def parseExpressionWithDepth (ctx : PCtx) : Nat → Nat → PM EnhancedNode
  | 0, _ => throwP .outOfFuel
  | f + 1, depth =>
    if ctx.maxDepth < depth then throwP (.tooDeep depth ctx.maxDepth)
    else parseOrWithDepth ctx f depth
termination_by structural f _ => f

/-- `Parser.parseOrWithDepth`. -/
def parseOrWithDepth (ctx : PCtx) : Nat → Nat → PM EnhancedNode
  | 0, _ => throwP .outOfFuel
  | f + 1, depth => do
    let left ← parseAndWithDepth ctx f (depth + 1)
    orLoop ctx f depth left
termination_by structural f _ => f

/-- The `for p.current.Type == TokenOR` loop of `parseOrWithDepth`. -/
def orLoop (ctx : PCtx) : Nat → Nat → EnhancedNode → PM EnhancedNode
  | 0, _, _ => throwP .outOfFuel
  | f + 1, depth, left => do
    let t ← getCur
    if t.typ == .orT then do
      advance
      let right ← parseAndWithDepth ctx f (depth + 1)
      let leftNode := enhancedNodeToNode (some left)
      let rightNode := enhancedNodeToNode (some right)
      orLoop ctx f depth
        { node := some (Node.mk .logical "" "" "OR" "" [leftNode, rightNode] false .exact) }
    else pure left
termination_by structural f _ _ => f

/-- `Parser.parseAndWithDepth`. -/
def parseAndWithDepth (ctx : PCtx) : Nat → Nat → PM EnhancedNode
  | 0, _ => throwP .outOfFuel
  | f + 1, depth => do
    let left ← parseUnaryWithDepth ctx f (depth + 1)
    andLoop ctx f depth left
termination_by structural f _ => f

/-- The explicit/implicit AND loop of `parseAndWithDepth`. -/
def andLoop (ctx : PCtx) : Nat → Nat → EnhancedNode → PM EnhancedNode
  | 0, _, _ => throwP .outOfFuel
  | f + 1, depth, left => do
    let t ← getCur
    if t.typ == .andT || isImplicitAndTok t then do
      if t.typ == .andT then advance else pure ()
      let right ← parseUnaryWithDepth ctx f (depth + 1)
      let leftNode := enhancedNodeToNode (some left)
      let rightNode := enhancedNodeToNode (some right)
      andLoop ctx f depth
        { node := some (Node.mk .logical "" "" "AND" "" [leftNode, rightNode] false .exact) }
    else pure left
termination_by structural f _ _ => f

/-- `Parser.parseUnaryWithDepth`: `NOT`, required `+`, prohibited `-`. -/
def parseUnaryWithDepth (ctx : PCtx) : Nat → Nat → PM EnhancedNode
  | 0, _ => throwP .outOfFuel
  | f + 1, depth => do
    let t ← getCur
    if t.typ == .notT then do
      advance
      let e ← parsePrimaryWithDepth ctx f (depth + 1)
      pure { node := some (Node.mk .logical "" "" "NOT" "" [e.node] false .exact) }
    else if t.typ == .plus then do
      advance
      let e ← parsePrimaryWithDepth ctx f (depth + 1)
      pure { e with required := true }
    else if t.typ == .minus then do
      advance
      let e ← parsePrimaryWithDepth ctx f (depth + 1)
      pure { e with prohibited := true }
    else parsePrimaryWithDepth ctx f (depth + 1)
termination_by structural f _ => f

/-- `Parser.parsePrimaryWithDepth`: groups, quoted phrases, terms. -/
def parsePrimaryWithDepth (ctx : PCtx) : Nat → Nat → PM EnhancedNode
  | 0, _ => throwP .outOfFuel
  | f + 1, depth => do
    let t ← getCur
    if t.typ == .lparen then do
      advance
      let e ← parseExpressionWithDepth ctx f (depth + 1)
      let t2 ← getCur
      if t2.typ != .rparen then
        throwP (.unexpectedToken ("expected closing paren, got " ++ t2.value))
      else pure ()
      advance
      pure e
    else if t.typ == .str then parsePhrase ctx
    else parseTerm ctx f
termination_by structural f _ => f

end

/-- Initial parser state: the Go zero-valued `current`/`peek` tokens
(`TokenEOF` is the zero value) before the two loading `advance` calls. -/
def initPState (input : List Char) : PState :=
  { current := zeroTok, peek := zeroTok, rest := input, termCount := 0 }

/-- Fuel that comfortably bounds the recursion: the depth guard stops
descent after `O(maxDepth)` nested calls, and every loop iteration consumes
at least one token of the input. -/
def fuelFor (ctx : PCtx) (q : List Char) : Nat :=
  6 * (ctx.maxDepth + 2) + 2 * q.length + 16

/-- `Parser.parse` from `parser.go`: trim, short-circuit the empty query to a
nil tree, load the two lookahead tokens and run the grammar; the final parser
state (in particular the term counter) is returned alongside the result. -/
def runParse (ctx : PCtx) (query : List Char) : Except PErr (Option EnhancedNode) × PState :=
  let trimmed := trimSpaceL query
  if trimmed.isEmpty then (.ok none, initPState trimmed)
  else
    let m : PM EnhancedNode := do
      advance
      advance
      parseExpressionWithDepth ctx (fuelFor ctx trimmed) 0
    match m (initPState trimmed) with
    | (.ok en, s) => (.ok (some en), s)
    | (.error e, s) => (.error e, s)

/-! ## Map compiler (`Parser.enhancedNodeToMap`, `parser.go`) -/

/-- Values of the nested-map output (`map[string]any`); maps are modelled as
association lists in insertion order (Go map iteration order is unspecified). -/
inductive MVal where
  | s (v : String)
  | b (v : Bool)
  | n (v : Nat)
  | raw (v : String)
  | obj (entries : List (String × MVal))
  | arr (vs : List (List (String × MVal)))
  deriving Repr

mutual

/-- The per-node-kind part of `enhancedNodeToMap`. The Go code recurses on
children through wrapper `EnhancedNode`s whose modifier fields are all unset,
so the wrapper appends nothing and the recursion is on the plain nodes. -/
def nodeToMap : Option Node → List (String × MVal)
  | none => []
  | some n =>
    match n.typ with
    | .term => [(n.field, .s n.value)]
    | .wildcard =>
      [(n.field, .obj [("$like", .s (wildcardToPattern n.value n.matchType))])]
    | .logical => [(n.operator, .arr (mapChildren n.children))]
    | _ => []
termination_by c => sizeOf c
decreasing_by
  all_goals simp_wf
  have := Node.sizeOf_children_lt n
  omega

/-- Child loop of the logical case of `enhancedNodeToMap`. -/
def mapChildren : List (Option Node) → List (List (String × MVal))
  | [] => []
  | c :: rest => nodeToMap c :: mapChildren rest
termination_by cs => sizeOf cs
decreasing_by
  all_goals simp_wf <;> omega

end

/-- `Parser.enhancedNodeToMap` from `parser.go`: the node map plus the
modifier keys for the enhanced fields that are set. -/
def enhancedNodeToMap (en? : Option EnhancedNode) : List (String × MVal) :=
  match en? with
  | none => []
  | some en =>
    match en.node with
    | none => []
    | some n =>
      nodeToMap (some n)
        ++ (if en.required then [("$required", .b true)] else [])
        ++ (if en.prohibited then [("$prohibited", .b true)] else [])
        ++ (if boostPos en.boost then [("$boost", .raw en.boost)] else [])
        ++ (if 0 < en.proximity then [("$proximity", .n en.proximity)] else [])
        ++ (if 0 < en.fuzzy then [("$fuzzy", .n en.fuzzy)] else [])
        ++ (match en.rangeInfo with
            | some ri =>
              [("$range", .obj [("min", .s ri.min), ("max", .s ri.max),
                                ("inclusive", .b ri.inclusive)])]
            | none => [])

/-! ## Entry points (`parser.go`) -/

/-- `Parser.ParseToSQL`: the byte-length guard (checked before any
tokenization), then parse and render. -/
def parseToSQL (ctx : PCtx) (query : List Char) : Except PErr (String × List String) :=
  if ctx.maxQueryLength < query.length then
    .error (.queryTooLong query.length ctx.maxQueryLength)
  else
    match (runParse ctx query).1 with
    | .error e => .error e
    | .ok en? => (enhancedNodeToSQL en?).1

/-- `Parser.ParseToMap`: the same byte-length guard, then parse and convert. -/
def parseToMap (ctx : PCtx) (query : List Char) : Except PErr (List (String × MVal)) :=
  if ctx.maxQueryLength < query.length then
    .error (.queryTooLong query.length ctx.maxQueryLength)
  else
    match (runParse ctx query).1 with
    | .error e => .error e
    | .ok en? => .ok (enhancedNodeToMap en?)

/-- `Parser.ParseToDynamoDBPartiQL`: the same byte-length guard, then parse
and render to the PartiQL dialect. -/
def parseToPartiQL (ctx : PCtx) (query : List Char) : Except PErr (String × List String) :=
  if ctx.maxQueryLength < query.length then
    .error (.queryTooLong query.length ctx.maxQueryLength)
  else
    match (runParse ctx query).1 with
    | .error e => .error e
    | .ok en? => (enhancedNodeToPartiQL en?).1

/-! ## PostgreSQL JSONB driver over go-lucene expressions
(`driver.go` and its extended variant with null handling and fuzzy rendering).

The go-lucene `expr.Expression` struct has an operator and untyped
`Left`/`Right` fields that in practice hold a column, a string, a nested
expression, a `*RangeBoundary`, or nil; `DVal` enumerates those cases.
Calls that Go forwards to the external go-lucene base driver
(`driver.Base.RenderParam`) are modelled by the error marker
`PErr.externalBase`: the base driver is not part of this repository and no
claim depends on those paths. -/

/-- `expr.Operator` values dispatched by the driver. -/
inductive DOp where
  | undefined | literal | equals | andOp | orOp | notOp | range
  | must | mustNot | boost | fuzzy | like | wild | regexp
  | greater | less | greaterEq | lessEq | inOp | listOp
  deriving DecidableEq, Repr

mutual

/-- The untyped `any` positions of a go-lucene expression. -/
inductive DVal where
  | col (s : String)
  | str (s : String)
  | expr (e : DExpr)
  | rangeB (minB maxB : Option DVal) (inclusive : Bool)
  | nilV
  deriving Repr

/-- `expr.Expression`: operator with left and right operands. -/
inductive DExpr where
  | mk (op : DOp) (left : DVal) (right : DVal)
  deriving Repr

end

def DExpr.op : DExpr → DOp
  | .mk o _ _ => o

def DExpr.left : DExpr → DVal
  | .mk _ l _ => l

def DExpr.right : DExpr → DVal
  | .mk _ _ r => r

/-- `isJSONBSyntax` from the extended driver. -/
def isJSONBSyntax (colStr : String) : Bool := strHasSub colStr "->>"

/-- `convertWildcards` from the extended driver: `*`→`%`, `?`→`_`. -/
def convertWildcards (s : String) : String :=
  (s.toList.map (fun c =>
    if c == '*' then '%' else if c == '?' then '_' else c)).asString

/-- Go `fmt.Sprintf("%q"-less `%s` quoting)`: `"..."` around an identifier. -/
def quoteIdent (s : String) : String := "\"" ++ s ++ "\""

/-- `extractStringValue` from the extended driver: a string, or the string
payload of a literal expression; anything else yields the empty string. -/
def extractStringValue : DVal → String
  | .str s => s
  | .expr (.mk .literal (.str s) _) => s
  | _ => ""

/-- `isNilValue` from the extended driver: the value is the case-insensitive
null literal `nil`/`null`. -/
def isNilValue (v : DVal) : Bool :=
  let strVal := extractStringValue v
  if strVal == "" then false
  else
    let lower := (strVal.toList.map Char.toLower).asString
    lower == "nil" || lower == "null"

/-- `fmt.Sprintf("%v", ...)` of a value, as used by `extractLiteralValue` and
`serializeValue`; the dump of a non-literal expression is modelled by a
placeholder (no claim reaches that path). -/
def dvalDump : DVal → String
  | .col s => s
  | .str s => s
  | .nilV => "<nil>"
  | .expr _ => "<expr>"
  | .rangeB _ _ _ => "<range>"

/-- `extractLiteralValue` from the driver: nil yields `""`; a literal
expression yields its payload; otherwise the `%v` dump. -/
def extractLiteralValue : DVal → String
  | .nilV => ""
  | .expr (.mk .literal .nilV r) => dvalDump (.expr (.mk .literal .nilV r))
  | .expr (.mk .literal l _) => dvalDump l
  | .expr e => dvalDump (.expr e)
  | v => dvalDump v

mutual

/-- `renderParamInternal` from the extended driver: dispatch on the operator;
operators the driver does not intercept go to the external base driver. -/
def renderParamInternal : DExpr → Except PErr (String × List String)
  | .mk op l r =>
    match op with
    | .like => renderLikeOrWild (.mk .like l r)
    | .wild => renderLikeOrWild (.mk .wild l r)
    | .fuzzy => renderFuzzy (.mk .fuzzy l r)
    | .boost => .error .boostUnsupported
    | .range => renderRangeD (.mk .range l r)
    | .equals => renderComparison (.mk .equals l r)
    | .greater => renderComparison (.mk .greater l r)
    | .less => renderComparison (.mk .less l r)
    | .greaterEq => renderComparison (.mk .greaterEq l r)
    | .lessEq => renderComparison (.mk .lessEq l r)
    | .andOp => renderBinary (.mk .andOp l r)
    | .orOp => renderBinary (.mk .orOp l r)
    | .must => renderBinary (.mk .must l r)
    | .mustNot => renderBinary (.mk .mustNot l r)
    | _ => .error .externalBase
termination_by e => 2 * sizeOf e + 1
decreasing_by
  all_goals simp_wf <;> omega

/-- `renderLikeOrWild`: case-insensitive `ILIKE`, with a `::text` cast for
non-JSONB columns. -/
def renderLikeOrWild : DExpr → Except PErr (String × List String)
  | .mk _ l r => do
    let (leftStr, leftParams) ← serializeColumn l
    let (rightStr, rightParams) ← serializeValue r
    let params := leftParams ++ rightParams
    if isJSONBSyntax leftStr then
      pure (leftStr ++ " ILIKE " ++ rightStr, params)
    else
      pure (leftStr ++ "::text ILIKE " ++ rightStr, params)
termination_by e => 2 * sizeOf e
decreasing_by
  all_goals simp_wf <;> omega

/-- `renderFuzzy`: a `similarity(...) > 0.3` predicate; requires the left
side to be an equals expression (`field:value`). `%f` prints `0.300000`. -/
def renderFuzzy : DExpr → Except PErr (String × List String)
  | .mk _ (.expr (.mk lop ll lr)) _ =>
    if lop == .equals then do
      let (colStr, colParams) ← serializeColumn ll
      let (termStr, termParams) ← serializeValue lr
      let params := colParams ++ termParams
      if isJSONBSyntax colStr then
        pure ("similarity(" ++ colStr ++ ", " ++ termStr ++ ") > 0.300000", params)
      else
        pure ("similarity(" ++ colStr ++ "::text, " ++ termStr ++ ") > 0.300000", params)
    else .error .fuzzyShape
  | .mk _ _ _ => .error .fuzzyShape
termination_by e => 2 * sizeOf e
decreasing_by
  all_goals simp_wf <;> omega

/-- `renderComparison`: comparison operators with nil/null support.
A null right-hand side renders `IS NULL` under equals and is an error under
any ordering comparator. -/
def renderComparison : DExpr → Except PErr (String × List String)
  | .mk op l r => do
    let (leftStr, leftParams) ← serializeColumn l
    if isNilValue r then
      if op == .equals then
        pure (leftStr ++ " IS NULL", leftParams)
      else
        throw .nilCompareErr
    else do
      let (rightStr, rightParams) ← serializeValue r
      let params := leftParams ++ rightParams
      let opSymbol :=
        match op with
        | .equals => "="
        | .greater => ">"
        | .less => "<"
        | .greaterEq => ">="
        | .lessEq => "<="
        | _ => ""
      pure (leftStr ++ " " ++ opSymbol ++ " " ++ rightStr, params)
termination_by e => 2 * sizeOf e
decreasing_by
  all_goals simp_wf <;> omega

/-- `renderBinary`: `AND`/`OR` over two sub-expressions, unary `Must`/`MustNot`
on the left operand. -/
def renderBinary : DExpr → Except PErr (String × List String)
  | .mk op l r =>
    match op with
    | .must | .mustNot =>
      match l with
      | .nilV => .error .binaryOperandMissing
      | .expr le => do
        let (leftStr, leftParams) ← renderParamInternal le
        if op == .must then pure (leftStr, leftParams)
        else pure ("NOT (" ++ leftStr ++ ")", leftParams)
      | other =>
        match serializeColumn other with
        | .ok (leftStr, leftParams) =>
          if op == .must then .ok (leftStr, leftParams)
          else .ok ("NOT (" ++ leftStr ++ ")", leftParams)
        | .error _ =>
          match serializeValue other with
          | .ok (leftStr, leftParams) =>
            if op == .must then .ok (leftStr, leftParams)
            else .ok ("NOT (" ++ leftStr ++ ")", leftParams)
          | .error _ => .error .externalBase
    | .andOp | .orOp =>
      match l, r with
      | .nilV, _ => .error .binaryOperandMissing
      | _, .nilV => .error .binaryOperandMissing
      | .expr le, .expr re => do
        let (leftStr, leftParams) ← renderParamInternal le
        let (rightStr, rightParams) ← renderParamInternal re
        let params := leftParams ++ rightParams
        if op == .andOp then
          pure ("(" ++ leftStr ++ ") AND (" ++ rightStr ++ ")", params)
        else
          pure ("(" ++ leftStr ++ ") OR (" ++ rightStr ++ ")", params)
      | _, _ => .error .externalBase
    | _ => .error .unsupportedOperator
termination_by e => 2 * sizeOf e
decreasing_by
  all_goals simp_wf <;> omega

/-- `renderRange` from the driver: open-ended ranges via the `*` sentinel;
both bounds `*` is an error; both bounds present render `BETWEEN` when
inclusive and strict comparisons otherwise. -/
def renderRangeD : DExpr → Except PErr (String × List String)
  | .mk _ l r => do
    let (colStr, _) ← serializeColumn l
    match r with
    | .rangeB minB maxB inclusive =>
      let minVal := match minB with | some v => extractLiteralValue v | none => ""
      let maxVal := match maxB with | some v => extractLiteralValue v | none => ""
      if minVal == "*" && maxVal == "*" then
        throw .bothBoundsWild
      else if minVal == "*" then
        if inclusive then pure (colStr ++ " <= ?", [maxVal])
        else pure (colStr ++ " < ?", [maxVal])
      else if maxVal == "*" then
        if inclusive then pure (colStr ++ " >= ?", [minVal])
        else pure (colStr ++ " > ?", [minVal])
      else
        if inclusive then pure (colStr ++ " BETWEEN ? AND ?", [minVal, maxVal])
        else pure ("(" ++ colStr ++ " > ? AND " ++ colStr ++ " < ?)", [minVal, maxVal])
    | _ => .error .invalidRangeStructure
termination_by e => 2 * sizeOf e
decreasing_by
  all_goals simp_wf <;> omega

/-- `serializeColumn` from the extended driver: identifiers are quoted except
when they already contain the JSONB accessor `->>`. -/
def serializeColumn : DVal → Except PErr (String × List String)
  | .col s =>
    if isJSONBSyntax s then .ok (s, []) else .ok (quoteIdent s, [])
  | .str s =>
    if isJSONBSyntax s then .ok (s, []) else .ok (quoteIdent s, [])
  | .expr (.mk .literal (.col s) _) =>
    if isJSONBSyntax s then .ok (s, []) else .ok (quoteIdent s, [])
  | .expr e => renderParamInternal e
  | _ => .error .unexpectedColumnType
termination_by v => 2 * sizeOf v
decreasing_by
  all_goals simp_wf <;> omega

/-- `serializeValue` from the extended driver: values become a `?` placeholder
with the wildcard-converted text as the parameter. -/
def serializeValue : DVal → Except PErr (String × List String)
  | .str v => .ok ("?", [convertWildcards v])
  | .expr (.mk .literal .nilV rr) => renderParamInternal (.mk .literal .nilV rr)
  | .expr (.mk .literal lv _) => .ok ("?", [convertWildcards (dvalDump lv)])
  | .expr (.mk .wild .nilV rr) => renderParamInternal (.mk .wild .nilV rr)
  | .expr (.mk .wild lv _) => .ok ("?", [convertWildcards (dvalDump lv)])
  | .expr e => renderParamInternal e
  | .nilV => .error .nilValueErr
  | v => .ok ("?", [dvalDump v])
termination_by v => 2 * sizeOf v
decreasing_by
  all_goals simp_wf <;> omega

end

/-- `formatFieldName` of the driver (`driver.go`): the field map is keyed by
name, so a duplicate name keeps the last entry. -/
def formatFieldNameD (fields : List FieldInfo) (fieldName : String) : String :=
  match fieldName.toList.span (· != '.') with
  | (base, '.' :: sub) =>
    let baseField := base.asString
    let subField := sub.asString
    match fields.reverse.find? (fun f => f.name == baseField) with
    | some fi =>
      if fi.isJSONB then baseField ++ "->>" ++ sq ++ subField ++ sq
      else fieldName
    | none => fieldName
  | _ => fieldName

mutual

/-- `processJSONBFields` from the driver: rewrite dotted columns to the JSONB
accessor throughout the tree. (Go mutates the expressions in place; the
rewrite is modelled as a pure tree transformation. The Go slice cases have no
counterpart because `DVal` has no expression-slice constructor.) -/
def processJSONB (fields : List FieldInfo) : DExpr → DExpr
  | .mk op l r => .mk op (processJSONBVal fields l) (processJSONBVal fields r)

/-- Value part of `processJSONBFields`. -/
def processJSONBVal (fields : List FieldInfo) : DVal → DVal
  | .col s => .col (formatFieldNameD fields s)
  | .expr e => .expr (processJSONB fields e)
  | v => v

end

/-- `convertToPostgresPlaceholders` (`driver.go`): rewrite each `?` to `$N`
with a counter starting at 1, scanning left to right. -/
def convertFrom : Nat → List Char → String
  | _, [] => ""
  | k, c :: rest =>
    if c == '?' then "$" ++ toString k ++ convertFrom (k + 1) rest
    else c.toString ++ convertFrom k rest

/-- `convertToPostgresPlaceholders` entry point. -/
def convertToPostgresPlaceholders (query : String) : String :=
  convertFrom 1 query.toList

/-- `PostgresJSONBDriver.RenderParam`: JSONB field rewriting, rendering with
`?` placeholders, then conversion to `$N` placeholders. -/
def renderParamD (fields : List FieldInfo) (e : DExpr) : Except PErr (String × List String) := do
  let e2 := processJSONB fields e
  let (s, ps) ← renderParamInternal e2
  pure (convertToPostgresPlaceholders s, ps)

/-! ## Claim C8: the length guard -/

/-- C8: for every input longer than `MaxQueryLength` bytes, `ParseToSQL`,
`ParseToMap` and `ParseToDynamoDBPartiQL` fail with the length-exceeded error
carrying only the length and the limit — before any tokenization — so the
outcome on over-long input depends only on the byte length, never on the
content: any two over-long inputs of equal length produce identical results. -/
theorem C8_length_guard (ctx : PCtx) (q : List Char)
    (h : ctx.maxQueryLength < q.length) :
    parseToSQL ctx q = .error (.queryTooLong q.length ctx.maxQueryLength) ∧
    parseToMap ctx q = .error (.queryTooLong q.length ctx.maxQueryLength) ∧
    parseToPartiQL ctx q = .error (.queryTooLong q.length ctx.maxQueryLength) ∧
    (∀ q2 : List Char, q2.length = q.length →
      parseToSQL ctx q2 = parseToSQL ctx q ∧
      parseToMap ctx q2 = parseToMap ctx q ∧
      parseToPartiQL ctx q2 = parseToPartiQL ctx q) := by
  refine ⟨?_, ?_, ?_, ?_⟩
  · simp [parseToSQL, h]
  · simp [parseToMap, h]
  · simp [parseToPartiQL, h]
  · intro q2 hlen
    have h2 : ctx.maxQueryLength < q2.length := hlen ▸ h
    refine ⟨?_, ?_, ?_⟩ <;> simp [parseToSQL, parseToMap, parseToPartiQL, h, h2, hlen]

/-- C8 witness: with `MaxQueryLength = 3`, the four-byte inputs `abcd` and
`zzzz` both fail with the same length-exceeded error. -/
theorem C8_length_guard_witness :
    parseToSQL { defaultFields := [], maxQueryLength := 3 } "abcd".toList =
      .error (.queryTooLong 4 3) ∧
    parseToSQL { defaultFields := [], maxQueryLength := 3 } "zzzz".toList =
      parseToSQL { defaultFields := [], maxQueryLength := 3 } "abcd".toList := by
  have h := C8_length_guard { defaultFields := [], maxQueryLength := 3 }
    "abcd".toList (by decide)
  exact ⟨h.1, ((h.2.2.2 "zzzz".toList (by decide)).1)⟩

/-! ## Claim C3: range rendering -/

/-- C3: a range with both bounds present and non-`*` renders, inclusively, a
`>=` lower bound ANDed with a `<=` upper bound (the driver path renders the
equivalent `BETWEEN ? AND ?`), and exclusively strict `>` / `<`; with exactly
one `*` bound only the condition of the other bound is rendered, on both the
built-in compiler (`rangeToSQL`) and the driver (`renderRange`). -/
theorem C3_range_rendering (f minv maxv : String)
    (hmin : minv ≠ "*") (hmax : maxv ≠ "*") :
    rangeToSQL ⟨f, minv, maxv, true⟩ =
      .ok (f ++ " >= ?" ++ " AND " ++ (f ++ " <= ?"), [minv, maxv]) ∧
    rangeToSQL ⟨f, minv, maxv, false⟩ =
      .ok (f ++ " > ?" ++ " AND " ++ (f ++ " < ?"), [minv, maxv]) ∧
    rangeToSQL ⟨f, minv, "*", true⟩ = .ok (f ++ " >= ?", [minv]) ∧
    rangeToSQL ⟨f, minv, "*", false⟩ = .ok (f ++ " > ?", [minv]) ∧
    rangeToSQL ⟨f, "*", maxv, true⟩ = .ok (f ++ " <= ?", [maxv]) ∧
    rangeToSQL ⟨f, "*", maxv, false⟩ = .ok (f ++ " < ?", [maxv]) ∧
    (∀ c : String,
      renderRangeD (.mk .range (.col c)
          (.rangeB (some (.str minv)) (some (.str maxv)) true)) =
        .ok ((if isJSONBSyntax c then c else quoteIdent c) ++ " BETWEEN ? AND ?",
             [minv, maxv]) ∧
      renderRangeD (.mk .range (.col c)
          (.rangeB (some (.str minv)) (some (.str "*")) true)) =
        .ok ((if isJSONBSyntax c then c else quoteIdent c) ++ " >= ?", [minv]) ∧
      renderRangeD (.mk .range (.col c)
          (.rangeB (some (.str "*")) (some (.str maxv)) true)) =
        .ok ((if isJSONBSyntax c then c else quoteIdent c) ++ " <= ?", [maxv])) := by
  have hmin' : (minv != "*") = true := by simp [bne_iff_ne, hmin]
  have hmax' : (maxv != "*") = true := by simp [bne_iff_ne, hmax]
  have hminq : (minv == "*") = false := by simp [hmin]
  have hmaxq : (maxv == "*") = false := by simp [hmax]
  refine ⟨?_, ?_, ?_, ?_, ?_, ?_, ?_⟩
  · simp [rangeToSQL, hmin', hmax', sepJoin, String.append_assoc]
  · simp [rangeToSQL, hmin', hmax', sepJoin, String.append_assoc]
  · simp [rangeToSQL, hmin', sepJoin]
  · simp [rangeToSQL, hmin', sepJoin]
  · simp [rangeToSQL, hmax', sepJoin]
  · simp [rangeToSQL, hmax', sepJoin]
  · intro c
    by_cases hc : isJSONBSyntax c = true
    · refine ⟨?_, ?_, ?_⟩ <;>
        simp [renderRangeD, serializeColumn, hc, extractLiteralValue, dvalDump,
              hminq, hmaxq, Bind.bind, Except.bind, pure, Except.pure]
    · refine ⟨?_, ?_, ?_⟩ <;>
        simp [renderRangeD, serializeColumn, hc, extractLiteralValue, dvalDump,
              hminq, hmaxq, Bind.bind, Except.bind, pure, Except.pure]

/-- C3 witness: the concrete range `age:[18 TO 65]` and its open variants. -/
theorem C3_range_rendering_witness :
    rangeToSQL ⟨"age", "18", "65", true⟩ =
      .ok ("age" ++ " >= ?" ++ " AND " ++ ("age" ++ " <= ?"), ["18", "65"]) ∧
    rangeToSQL ⟨"age", "18", "*", true⟩ = .ok ("age" ++ " >= ?", ["18"]) ∧
    rangeToSQL ⟨"age", "*", "65", true⟩ = .ok ("age" ++ " <= ?", ["65"]) :=
  have h := C3_range_rendering "age" "18" "65" (by decide) (by decide)
  ⟨h.1, h.2.2.1, h.2.2.2.2.1⟩

/-! ## Claim C4: both range bounds open -/

/-- C4 counterexample: the claim says `field:[* TO *]` must fail, but the
parse-to-SQL pipeline accepts it and produces an empty fragment with no
parameters and no error. -/
theorem C4_counterexample :
    parseToSQL { defaultFields := [⟨"age", false⟩] } "age:[* TO *]".toList =
      .ok ("", []) := by
  rfl

/-- C4 (amended): a range whose two bounds are both `*` is not an error on the
built-in compiler: `rangeToSQL` renders an empty fragment with no parameters
(so the whole clause silently disappears); only the driver's `renderRange`
rejects both-`*` ranges with an error. -/
theorem C4_both_open_range (f : String) (incl : Bool) :
    rangeToSQL ⟨f, "*", "*", incl⟩ = .ok ("", []) ∧
    (∀ c : String,
      renderRangeD (.mk .range (.col c)
          (.rangeB (some (.str "*")) (some (.str "*")) incl)) =
        .error .bothBoundsWild) := by
  constructor
  · simp [rangeToSQL]
  · intro c
    by_cases hc : isJSONBSyntax c = true <;>
      simp [renderRangeD, serializeColumn, hc, extractLiteralValue, dvalDump,
            Bind.bind, Except.bind, throw, throwThe, MonadExceptOf.throw]

/-! ## Claim C9: the null literal -/

/-- C9: when the right-hand value is the case-insensitive null literal
(`nil`/`null`, possibly wrapped in a literal expression), the driver's
comparison renderer emits `<column> IS NULL` with an empty parameter list
under equality, and fails with the nil-comparison render error under every
ordering comparator (`>`, `<`, `>=`, `<=`). -/
theorem C9_null_literal (c : String) (v : DVal) (op : DOp)
    (hnil : isNilValue v = true)
    (hord : op = .greater ∨ op = .less ∨ op = .greaterEq ∨ op = .lessEq) :
    renderComparison (.mk .equals (.col c) v) =
      .ok ((if isJSONBSyntax c then c else quoteIdent c) ++ " IS NULL", []) ∧
    renderComparison (.mk op (.col c) v) = .error .nilCompareErr := by
  rcases hord with h | h | h | h <;> subst h <;>
    by_cases hc : isJSONBSyntax c = true <;>
    refine ⟨?_, ?_⟩ <;>
    · simp only [renderComparison, serializeColumn, hc, hnil]
      simp [Bind.bind, Except.bind, pure, Except.pure, throw, throwThe,
            MonadExceptOf.throw]

/-- C9 witness: `status` compared with the literal `NULL` renders `IS NULL`
with no parameters under `=`, and errors under `>`. -/
theorem C9_null_literal_witness :
    renderComparison (.mk .equals (.col "status") (.str "NULL")) =
      .ok ((if isJSONBSyntax "status" then "status" else quoteIdent "status")
            ++ " IS NULL", []) ∧
    renderComparison (.mk .greater (.col "status") (.str "NULL")) =
      .error .nilCompareErr :=
  C9_null_literal "status" (.str "NULL") .greater (by decide) (Or.inl rfl)

/-! ## Claim C5: wildcard classification and patterns -/

/-- The concrete parser used by the C5 and C2 counterexamples. -/
def ctxName : PCtx := { defaultFields := [⟨"name", false⟩] }

/-- C5 counterexample: the claim classifies by wildcard position for values
containing `*` or `?`, so `name:?john` (leading wildcard `?`) should be
ends-with; the code only positions `*`, so `?john` is classified contains and
rendered with the pattern `%_john%` (wrapped on both sides), not an ends-with
pattern. -/
theorem C5_counterexample :
    parseToSQL ctxName "name:?john".toList =
      .ok ("name::text ILIKE ?", ["%_john%"]) ∧
    classifyTermValue "?john" = (.wildcard, .contains, "_john") ∧
    MatchT.contains ≠ MatchT.endsWith ∧
    strStarts "%_john%" "%" = true ∧ strEnds "%_john%" "%" = true := by
  refine ⟨?_, by decide, by decide, by decide, by decide⟩
  have hp : (runParse ctxName "name:?john".toList).1 =
      .ok (some { node := some (Node.mk .wildcard "name" "_john" "" "" [] false .contains) }) := by
    rfl
  simp only [parseToSQL]
  rw [if_neg (by decide), hp]
  simp [enhancedNodeToSQL, nodeToSQLInternal, wildcardToPattern,
        Node.typ, Node.field, Node.value, Node.comparison, Node.matchType,
        strHasSub, listIsInfix]

/-- C5 (amended): for a `field:value` term value containing `*` or `?`, the
match kind is classified by the position of `*` only — leading and trailing
`*` gives contains (all edge `*` trimmed), leading `*` only gives ends-with,
trailing `*` only gives starts-with, and any other wildcard value (including
values whose only wildcards are `?`, or `?` at the edges) gives contains with
`*`→`%`, `?`→`_` translated into the stored value. The SQL compiler renders a
wildcard node as a case-insensitive `ILIKE` match whose pattern appends `%`
for starts-with, prepends `%` for ends-with, and wraps both sides for
contains. -/
theorem C5_wildcard_classification (v f : String)
    (hw : strHasChar v '*' = true ∨ strHasChar v '?' = true) :
    (strStarts v "*" = true → strEnds v "*" = true →
       classifyTermValue v = (.wildcard, .contains, trimStars v)) ∧
    (strStarts v "*" = true → strEnds v "*" = false →
       classifyTermValue v = (.wildcard, .endsWith, trimPrefixStar v)) ∧
    (strStarts v "*" = false → strEnds v "*" = true →
       classifyTermValue v = (.wildcard, .startsWith, trimSuffixStar v)) ∧
    (strStarts v "*" = false → strEnds v "*" = false →
       classifyTermValue v = (.wildcard, .contains, replaceQuestUnd (replaceStarPct v))) ∧
    wildcardToPattern v .startsWith = v ++ "%" ∧
    wildcardToPattern v .endsWith = "%" ++ v ∧
    wildcardToPattern v .contains = "%" ++ v ++ "%" ∧
    (∀ mt : MatchT,
      nodeToSQLInternal (some (Node.mk .wildcard f v "" "" [] false mt)) =
        .ok ((if strHasSub f "->>" then f ++ " ILIKE ?" else f ++ "::text ILIKE ?"),
             [wildcardToPattern v mt])) := by
  have hb : (strHasChar v '*' || strHasChar v '?') = true := by
    rcases hw with h | h <;> simp [h]
  refine ⟨?_, ?_, ?_, ?_, rfl, rfl, rfl, ?_⟩
  · intro h1 h2
    simp [classifyTermValue, hb, h1, h2]
  · intro h1 h2
    simp [classifyTermValue, hb, h1, h2]
  · intro h1 h2
    simp [classifyTermValue, hb, h1, h2]
  · intro h1 h2
    simp [classifyTermValue, hb, h1, h2]
  · intro mt
    by_cases hf : strHasSub f "->>" = true <;>
      simp [nodeToSQLInternal, Node.typ, Node.field, Node.value, Node.matchType, hf]

/-- C5 witness: `john*` is starts-with with pattern `john%`; `*john` is
ends-with with pattern `%john`; `*john*` is contains with pattern `%john%`. -/
theorem C5_wildcard_classification_witness :
    classifyTermValue "john*" = (.wildcard, .startsWith, trimSuffixStar "john*") ∧
    classifyTermValue "*john" = (.wildcard, .endsWith, trimPrefixStar "*john") ∧
    classifyTermValue "*john*" = (.wildcard, .contains, trimStars "*john*") ∧
    wildcardToPattern "john*" .startsWith = "john*" ++ "%" :=
  ⟨(C5_wildcard_classification "john*" "name" (Or.inl (by decide))).2.2.1
      (by decide) (by decide),
   (C5_wildcard_classification "*john" "name" (Or.inl (by decide))).2.1
      (by decide) (by decide),
   (C5_wildcard_classification "*john*" "name" (Or.inl (by decide))).1
      (by decide) (by decide),
   (C5_wildcard_classification "john*" "name" (Or.inl (by decide))).2.2.2.2.1⟩

/-! ## Claim C10: tree immutability under compilation -/

/-- The concrete fuzzy term node of the C10 counterexample. -/
def c10node : Node := Node.mk .term "name" "john" "" "" [] false .exact

/-- The concrete enhanced node of the C10 counterexample (`name:john~1`). -/
def c10en : EnhancedNode := { node := some c10node, fuzzy := 1 }

/-- C10 counterexample: compiling a fuzzy term to SQL overwrites the node's
`Type` and `MatchType` in place, so the tree is not immutable: after the call
the node's type is `NodeWildcard` although it was constructed as `NodeTerm`. -/
theorem C10_counterexample :
    c10node.typ = NodeT.term ∧
    (enhancedNodeToSQL (some c10en)).2 =
      some { c10en with node := some (setWildContains c10node) } ∧
    (setWildContains c10node).typ = NodeT.wildcard ∧
    NodeT.wildcard ≠ NodeT.term := by
  exact ⟨rfl, rfl, rfl, by decide⟩

/-- C10 (amended): `Node`/`EnhancedNode` trees are not immutable: compiling to
SQL or to the key/value dialect rewrites the top-level node in place
(`Type := NodeWildcard`, `MatchType := matchContains`) exactly when the node
carries a fuzzy modifier, is a plain term, and is neither a range nor
prohibited; in every other case the tree is left unchanged, and the rewrite is
idempotent: compiling the post-call tree again changes nothing and returns the
same fragment and parameters. -/
theorem C10_compile_mutation (en : EnhancedNode) :
    (match en.node with
     | none => (enhancedNodeToSQL (some en)).2 = some en
     | some n =>
       (enhancedNodeToSQL (some en)).2 =
         some (if en.rangeInfo = none ∧ en.prohibited = false ∧ 0 < en.fuzzy ∧ n.typ = .term
               then { en with node := some (setWildContains n) }
               else en)) ∧
    ((enhancedNodeToSQL (enhancedNodeToSQL (some en)).2).2 =
       (enhancedNodeToSQL (some en)).2 ∧
     (enhancedNodeToSQL (enhancedNodeToSQL (some en)).2).1 =
       (enhancedNodeToSQL (some en)).1) ∧
    (match en.node with
     | none => (enhancedNodeToPartiQL (some en)).2 = some en
     | some n =>
       (enhancedNodeToPartiQL (some en)).2 =
         some (if en.rangeInfo = none ∧ en.prohibited = false ∧ 0 < en.fuzzy ∧ n.typ = .term
               then { en with node := some (setWildContains n) }
               else en)) := by
  obtain ⟨node?, req, proh, boost, prox, fz, isP, ri?⟩ := en
  cases node? with
  | none => exact ⟨rfl, ⟨rfl, rfl⟩, rfl⟩
  | some n =>
    cases ri? with
    | some ri =>
      refine ⟨?_, ⟨rfl, rfl⟩, ?_⟩ <;> simp [enhancedNodeToSQL, enhancedNodeToPartiQL]
    | none =>
      cases proh with
      | true =>
        refine ⟨?_, ⟨?_, ?_⟩, ?_⟩ <;>
          simp [enhancedNodeToSQL, enhancedNodeToPartiQL]
      | false =>
        by_cases hf : 0 < fz
        · by_cases ht : n.typ = NodeT.term
          · have hcond : (0 < fz && n.typ == NodeT.term) = true := by
              simp [hf, ht]
            have htyp2 : ((setWildContains n).typ == NodeT.term) = false := by
              cases n; simp [setWildContains, Node.typ]
            refine ⟨?_, ⟨?_, ?_⟩, ?_⟩ <;>
              simp [enhancedNodeToSQL, enhancedNodeToPartiQL, hcond, hf, ht, htyp2]
          · have hcond : (0 < fz && n.typ == NodeT.term) = false := by
              simp [ht]
            refine ⟨?_, ⟨?_, ?_⟩, ?_⟩ <;>
              simp [enhancedNodeToSQL, enhancedNodeToPartiQL, hcond, hf, ht]
        · have hcond : (0 < fz && n.typ == NodeT.term) = false := by
            simp [hf]
          refine ⟨?_, ⟨?_, ?_⟩, ?_⟩ <;>
            simp [enhancedNodeToSQL, enhancedNodeToPartiQL, hcond, hf]

/-! ## Claims C1 and C2: value isolation and placeholder bookkeeping

Infrastructure: value erasure, the in-order list of leaf payloads, `?`-counting
and field cleanliness, related to the SQL renderer by one mutual induction. -/

mutual

/-- Replace every `value` in a tree by the empty string, keeping everything
else (types, fields, operators, comparisons, match kinds, shape). -/
def eraseVals : Node → Node
  | .mk t f _ op cmp cs neg mt => .mk t f "" op cmp (eraseValsList cs) neg mt
termination_by n => sizeOf n

/-- `eraseVals` on an optional node. -/
def eraseValsOpt : Option Node → Option Node
  | none => none
  | some n => some (eraseVals n)
termination_by c => sizeOf c

/-- `eraseVals` on a children list. -/
def eraseValsList : List (Option Node) → List (Option Node)
  | [] => []
  | c :: rest => eraseValsOpt c :: eraseValsList rest
termination_by cs => sizeOf cs

end

mutual

/-- The in-order list of leaf payloads the SQL renderer emits as parameters:
the raw value of a term, the `ILIKE` pattern of a wildcard, the concatenation
over the children of a logical node. -/
def leafPayload : Option Node → List String
  | none => []
  | some n =>
    match n.typ with
    | .term => [n.value]
    | .wildcard => [wildcardToPattern n.value n.matchType]
    | .logical => leafPayloadList n.children
    | _ => []
termination_by c => sizeOf c
decreasing_by
  all_goals simp_wf
  have := Node.sizeOf_children_lt n
  omega

/-- `leafPayload` over a children list. -/
def leafPayloadList : List (Option Node) → List String
  | [] => []
  | c :: rest => leafPayload c ++ leafPayloadList rest
termination_by cs => sizeOf cs
decreasing_by
  all_goals simp_wf <;> omega

end

/-- Number of `?` characters in a string. -/
def countQ (s : String) : Nat := s.toList.count '?'

mutual

/-- Field/operator cleanliness: no emitted identifier or operator text
contains a literal `?` (a `?` inside an identifier would be indistinguishable
from a placeholder in the fragment). -/
def cleanQ : Option Node → Bool
  | none => true
  | some n =>
    match n.typ with
    | .term => !strHasChar n.field '?' && !strHasChar n.comparison '?'
    | .wildcard => !strHasChar n.field '?'
    | .logical => !strHasChar n.operator '?' && cleanQList n.children
    | _ => true
termination_by c => sizeOf c
decreasing_by
  all_goals simp_wf
  have := Node.sizeOf_children_lt n
  omega

/-- `cleanQ` over a children list. -/
def cleanQList : List (Option Node) → Bool
  | [] => true
  | c :: rest => cleanQ c && cleanQList rest
termination_by cs => sizeOf cs
decreasing_by
  all_goals simp_wf <;> omega

end

theorem countQ_append (a b : String) : countQ (a ++ b) = countQ a + countQ b := by
  simp [countQ, String.data_append, List.count_append]

theorem countQ_sepJoin (sep : String) (parts : List String) :
    countQ (sepJoin sep parts) =
      (parts.map countQ).sum + (parts.length - 1) * countQ sep := by
  match parts with
  | [] => simp [sepJoin, countQ]
  | [x] => simp [sepJoin]
  | x :: y :: rest =>
    have ih := countQ_sepJoin sep (y :: rest)
    simp only [sepJoin, countQ_append, ih, List.map_cons, List.sum_cons, List.length_cons,
               Nat.add_sub_cancel]
    ring

theorem length_append_str (a b : String) : (a ++ b).length = a.length + b.length :=
  String.length_append a b

theorem countQ_of_no_q (s : String) (h : strHasChar s '?' = false) : countQ s = 0 := by
  simp only [strHasChar] at h
  refine List.count_eq_zero.mpr ?_
  intro hm
  rw [List.contains_eq_any_beq] at h
  simp only [List.any_eq_false] at h
  have := h '?' hm
  simp at this

theorem countQ_notWrap (p : String) : countQ ("NOT (" ++ p ++ ")") = countQ p := by
  have h1 : countQ "NOT (" = 0 := by decide
  have h2 : countQ ")" = 0 := by decide
  simp [countQ_append, h1, h2]

theorem ne_empty_of_length_pos (s : String) (h : 0 < s.length) : s ≠ "" := by
  intro he
  rw [he] at h
  simp at h

/-- Induction invariant of the SQL renderer (claims C1 and C2): erasing the
values changes neither the fragment nor the error; the parameters are exactly
the in-order leaf payloads; an empty fragment carries no parameters; and when
no identifier or operator contains a literal `?`, the number of `?`
placeholders in the fragment equals the number of parameters. -/
def SQLSpec (c : Option Node) : Prop :=
  match nodeToSQLInternal c, nodeToSQLInternal (eraseValsOpt c) with
  | .ok (s, ps), .ok (s2, _) =>
    s2 = s ∧ ps = leafPayload c ∧ (s = "" → ps = []) ∧
    (cleanQ c = true → countQ s = ps.length)
  | .error e, .error e2 => e2 = e
  | _, _ => False

/-- List version of `SQLSpec` for the child loop. -/
def SQLSpecList (cs : List (Option Node)) : Prop :=
  match childrenToSQL cs, childrenToSQL (eraseValsList cs) with
  | .ok (parts, params), .ok (parts2, _) =>
    parts2 = parts ∧ params = leafPayloadList cs ∧ (parts = [] → params = []) ∧
    (∀ p ∈ parts, p ≠ "") ∧
    (cleanQList cs = true → (parts.map countQ).sum = params.length)
  | .error e, .error e2 => e2 = e
  | _, _ => False

theorem str_length_zero_iff (s : String) : s.length = 0 ↔ s = "" := by
  cases s with
  | mk d => cases d <;> simp [String.length, String.ext_iff]

theorem append_ne_empty_right (a b : String) (hb : b ≠ "") : a ++ b ≠ "" := by
  intro h
  have hl := congrArg String.length h
  rw [String.length_append] at hl
  have h0 : ("" : String).length = 0 := rfl
  rw [h0] at hl
  exact hb ((str_length_zero_iff b).mp (by omega))

theorem sum_countQ_notWrap (parts : List String) :
    ((parts.map (fun p => "NOT (" ++ p ++ ")")).map countQ).sum = (parts.map countQ).sum := by
  simp [List.map_map, Function.comp_def, countQ_notWrap]

theorem term_case (f v op cmp : String) (cs : List (Option Node)) (neg : Bool) (mt : MatchT) :
    SQLSpec (some (Node.mk .term f v op cmp cs neg mt)) := by
  simp only [SQLSpec, nodeToSQLInternal, eraseValsOpt, eraseVals,
             Node.typ, Node.field, Node.value, Node.comparison, ite_self]
  refine ⟨trivial, ?_, ?_, ?_⟩
  · simp [leafPayload, Node.typ, Node.value]
  · intro h
    exact absurd h (append_ne_empty_right _ _ (by decide))
  · intro hcl
    simp only [cleanQ, Node.typ, Node.field, Node.comparison, Bool.and_eq_true,
               Bool.not_eq_true'] at hcl
    have h1 : countQ f = 0 := countQ_of_no_q f hcl.1
    by_cases hc : cmp = ""
    · subst hc
      simp [countQ_append, h1]
      decide
    · have h2 : countQ cmp = 0 := countQ_of_no_q cmp hcl.2
      simp [countQ_append, h1, h2, hc]
      decide

theorem wildcard_case (f v op cmp : String) (cs : List (Option Node)) (neg : Bool) (mt : MatchT) :
    SQLSpec (some (Node.mk .wildcard f v op cmp cs neg mt)) := by
  simp only [SQLSpec, nodeToSQLInternal, eraseValsOpt, eraseVals,
             Node.typ, Node.field, Node.value, Node.matchType]
  by_cases hsub : strHasSub f "->>" = true
  · rw [if_pos hsub, if_pos hsub]
    refine ⟨rfl, ?_, ?_, ?_⟩
    · simp [leafPayload, Node.typ, Node.value, Node.matchType]
    · intro h
      exact absurd h (append_ne_empty_right _ _ (by decide))
    · intro hcl
      simp only [cleanQ, Node.typ, Node.field, Bool.not_eq_true'] at hcl
      have h1 : countQ f = 0 := countQ_of_no_q f hcl
      simp [countQ_append, h1]
      decide
  · rw [if_neg hsub, if_neg hsub]
    refine ⟨rfl, ?_, ?_, ?_⟩
    · simp [leafPayload, Node.typ, Node.value, Node.matchType]
    · intro h
      exact absurd h (append_ne_empty_right _ _ (by decide))
    · intro hcl
      simp only [cleanQ, Node.typ, Node.field, Bool.not_eq_true'] at hcl
      have h1 : countQ f = 0 := countQ_of_no_q f hcl
      simp [countQ_append, h1]
      decide

theorem countQ_sep_zero (op : String) (neg : Bool) (hopq : strHasChar op (Char.ofNat 63) = false) :
    countQ ((" " ++ if neg = true then "NOT " ++ op else op) ++ " ") = 0 := by
  have hop0 : countQ op = 0 := countQ_of_no_q op hopq
  cases neg <;>
    simp [countQ_append, hop0] <;> decide

theorem logical_case (f v op cmp : String) (cs : List (Option Node)) (neg : Bool) (mt : MatchT)
    (hcs : SQLSpecList cs) :
    SQLSpec (some (Node.mk .logical f v op cmp cs neg mt)) := by
  simp only [SQLSpec, nodeToSQLInternal, eraseValsOpt, eraseVals,
             Node.typ, Node.children, Node.operator, Node.negate]
  simp only [SQLSpecList] at hcs
  cases h1 : childrenToSQL cs with
  | error e =>
    rw [h1] at hcs
    cases h2 : childrenToSQL (eraseValsList cs) with
    | error e2 =>
      rw [h2] at hcs
      simp [hcs]
    | ok pr =>
      rw [h2] at hcs
      exact hcs.elim
  | ok pr =>
    obtain ⟨parts, params⟩ := pr
    rw [h1] at hcs
    cases h2 : childrenToSQL (eraseValsList cs) with
    | error e2 =>
      rw [h2] at hcs
      exact hcs.elim
    | ok pr2 =>
      obtain ⟨parts2, params2⟩ := pr2
      rw [h2] at hcs
      obtain ⟨hp2, hpay, hskip, hne, hcount⟩ := hcs
      subst hp2
      have hpayG : params = leafPayload (some (Node.mk .logical f v op cmp cs neg mt)) := by
        simpa [leafPayload, Node.typ, Node.children] using hpay
      have hcl2 : cleanQ (some (Node.mk .logical f v op cmp cs neg mt)) = true →
          strHasChar op (Char.ofNat 63) = false ∧ cleanQList cs = true := by
        intro hcl
        simpa [cleanQ, Node.typ, Node.operator, Node.children, Bool.and_eq_true,
               Bool.not_eq_true'] using hcl
      cases hp : parts2 with
      | nil =>
        subst hp
        simp only [List.isEmpty_nil, if_true]
        refine ⟨trivial, hskip rfl ▸ hpayG, ?_, ?_⟩ <;>
          first
            | (intro h; rfl)
            | (intro h; decide)
            | trivial
      | cons p rest =>
        subst hp
        simp only [List.isEmpty_cons, if_false, Bool.false_eq_true]
        by_cases hop : (op == "NOT") = true
        · rw [if_pos hop, if_pos hop]
          cases rest with
          | nil =>
            refine ⟨rfl, hpayG, ?_, ?_⟩
            · intro h
              exact absurd h (append_ne_empty_right _ _ (by decide))
            · intro hcl
              obtain ⟨hopq, hclL⟩ := hcl2 hcl
              have := hcount hclL
              simp only [List.map_cons, List.map_nil, List.sum_cons, List.sum_nil] at this
              rw [countQ_notWrap]
              omega
          | cons q rest2 =>
            refine ⟨rfl, hpayG, ?_, ?_⟩
            · intro h
              exact absurd h (append_ne_empty_right _ _ (by decide))
            · intro hcl
              obtain ⟨hopq, hclL⟩ := hcl2 hcl
              have hsum := hcount hclL
              rw [countQ_append, countQ_append, countQ_sepJoin, sum_countQ_notWrap]
              have h1c : countQ "(" = 0 := by decide
              have h2c : countQ ")" = 0 := by decide
              have h3c : countQ " AND " = 0 := by decide
              rw [h1c, h2c, h3c]
              omega
        · rw [if_neg hop, if_neg hop]
          cases rest with
          | nil =>
            refine ⟨rfl, hpayG, ?_, ?_⟩
            · intro h
              exact absurd (h ▸ (List.mem_singleton_self p)) (fun hm => hne "" hm rfl)
            · intro hcl
              obtain ⟨hopq, hclL⟩ := hcl2 hcl
              have := hcount hclL
              simpa using this
          | cons q rest2 =>
            refine ⟨rfl, hpayG, ?_, ?_⟩
            · intro h
              exact absurd h (append_ne_empty_right _ _ (by decide))
            · intro hcl
              obtain ⟨hopq, hclL⟩ := hcl2 hcl
              have hsum := hcount hclL
              rw [countQ_append, countQ_append, countQ_sepJoin, countQ_sep_zero op neg hopq]
              have h1c : countQ "(" = 0 := by decide
              have h2c : countQ ")" = 0 := by decide
              rw [h1c, h2c]
              omega

theorem list_cons (c : Option Node) (rest : List (Option Node))
    (hc : SQLSpec c) (hrest : SQLSpecList rest) : SQLSpecList (c :: rest) := by
  simp only [SQLSpec] at hc
  simp only [SQLSpecList] at hrest ⊢
  simp only [childrenToSQL, eraseValsList, leafPayloadList, cleanQList]
  cases h1 : nodeToSQLInternal c with
  | error e =>
    rw [h1] at hc
    cases h2 : nodeToSQLInternal (eraseValsOpt c) with
    | error e2 =>
      rw [h2] at hc
      simp [hc]
    | ok pr =>
      rw [h2] at hc
      exact hc.elim
  | ok pr =>
    obtain ⟨s, ps⟩ := pr
    rw [h1] at hc
    cases h2 : nodeToSQLInternal (eraseValsOpt c) with
    | error e2 =>
      rw [h2] at hc
      exact hc.elim
    | ok pr2 =>
      obtain ⟨s2, ps2⟩ := pr2
      rw [h2] at hc
      obtain ⟨hs2, hcpay, hcskip, hccount⟩ := hc
      rw [hs2]
      cases h3 : childrenToSQL rest with
      | error e =>
        rw [h3] at hrest
        cases h4 : childrenToSQL (eraseValsList rest) with
        | error e2 =>
          rw [h4] at hrest
          simp [hrest]
        | ok pr3 =>
          rw [h4] at hrest
          exact hrest.elim
      | ok pr3 =>
        obtain ⟨parts, params⟩ := pr3
        rw [h3] at hrest
        cases h4 : childrenToSQL (eraseValsList rest) with
        | error e2 =>
          rw [h4] at hrest
          exact hrest.elim
        | ok pr4 =>
          obtain ⟨parts2, params2⟩ := pr4
          rw [h4] at hrest
          obtain ⟨hp2, hpay, hskip, hne, hcount⟩ := hrest
          subst hp2
          simp only []
          by_cases hse : (s == "") = true
          · rw [if_pos hse, if_pos hse]
            have hs0 : s = "" := by simpa using hse
            have hps : ps = [] := hcskip hs0
            refine ⟨rfl, ?_, hskip, hne, ?_⟩
            · rw [hpay, ← hcpay, hps]
              simp
            · intro hclean
              have hc2 : cleanQList rest = true := by
                simp only [Bool.and_eq_true] at hclean
                exact hclean.2
              exact hcount hc2
          · rw [if_neg hse, if_neg hse]
            have hsne : s ≠ "" := by simpa using hse
            refine ⟨rfl, ?_, ?_, ?_, ?_⟩
            · rw [hcpay, hpay]
            · intro habs
              exact absurd habs (by simp)
            · intro p hp
              rcases List.mem_cons.mp hp with rfl | hmem
              · exact hsne
              · exact hne p hmem
            · intro hclean
              simp only [Bool.and_eq_true] at hclean
              have e1 := hccount hclean.1
              have e2 := hcount hclean.2
              simp only [List.map_cons, List.sum_cons, List.length_append, e1, e2]

theorem list_nil_case : SQLSpecList [] := by
  simp [SQLSpecList, childrenToSQL, eraseValsList, leafPayloadList]

theorem none_case : SQLSpec none := by
  simp only [SQLSpec, nodeToSQLInternal, eraseValsOpt, leafPayload]
  exact ⟨trivial, trivial, fun _ => trivial, fun _ => by decide⟩

theorem other_case (t : NodeT)
    (ht : t = .phrase ∨ t = .range ∨ t = .fuzzy ∨ t = .prox)
    (f v op cmp : String) (cs : List (Option Node)) (neg : Bool) (mt : MatchT) :
    SQLSpec (some (Node.mk t f v op cmp cs neg mt)) := by
  rcases ht with rfl | rfl | rfl | rfl <;>
    simp [SQLSpec, nodeToSQLInternal, eraseValsOpt, eraseVals, Node.typ]

mutual

/-- The SQL renderer satisfies the `SQLSpec` invariant on every tree. -/
theorem sqlSpec_holds : ∀ c : Option Node, SQLSpec c
  | none => none_case
  | some (.mk .term f v op cmp cs neg mt) => term_case f v op cmp cs neg mt
  | some (.mk .wildcard f v op cmp cs neg mt) => wildcard_case f v op cmp cs neg mt
  | some (.mk .logical f v op cmp cs neg mt) =>
    logical_case f v op cmp cs neg mt (sqlSpecList_holds cs)
  | some (.mk .phrase f v op cmp cs neg mt) =>
    other_case .phrase (Or.inl rfl) f v op cmp cs neg mt
  | some (.mk .range f v op cmp cs neg mt) =>
    other_case .range (Or.inr (Or.inl rfl)) f v op cmp cs neg mt
  | some (.mk .fuzzy f v op cmp cs neg mt) =>
    other_case .fuzzy (Or.inr (Or.inr (Or.inl rfl))) f v op cmp cs neg mt
  | some (.mk .prox f v op cmp cs neg mt) =>
    other_case .prox (Or.inr (Or.inr (Or.inr rfl))) f v op cmp cs neg mt
termination_by c => sizeOf c
decreasing_by
  all_goals simp_wf <;> omega

/-- The child loop satisfies `SQLSpecList` on every children list. -/
theorem sqlSpecList_holds : ∀ cs : List (Option Node), SQLSpecList cs
  | [] => list_nil_case
  | c :: rest => list_cons c rest (sqlSpec_holds c) (sqlSpecList_holds rest)
termination_by cs => sizeOf cs
decreasing_by
  all_goals simp_wf <;> omega

end


theorem convertFrom_append_q (k : Nat) (a b : List Char) :
    convertFrom k (a ++ '?' :: b) =
      convertFrom k a ++ "$" ++ toString (k + a.count '?') ++
        convertFrom (k + a.count '?' + 1) b := by
  induction a generalizing k with
  | nil => simp [convertFrom]
  | cons c a2 ih =>
    by_cases hc : c = '?'
    · subst hc
      simp [convertFrom, ih, List.count_cons, String.append_assoc,
            Nat.add_assoc, Nat.add_comm, Nat.add_left_comm]
    · simp [convertFrom, hc, ih, List.count_cons, String.append_assoc,
            Nat.add_assoc, Nat.add_comm, Nat.add_left_comm]

/-- C1: no user-supplied value text reaches the compiled fragment: replacing
every value in the tree by the empty string leaves the fragment (and any
error) of the SQL renderer unchanged, so the fragment depends only on the
tree structure, field names, operators and placeholders; every value is
emitted exclusively through the ordered parameter list, which equals the
in-order list of leaf payloads. -/
theorem C1_fragment_value_independent (c : Option Node) :
    Except.map Prod.fst (nodeToSQLInternal (eraseValsOpt c)) =
      Except.map Prod.fst (nodeToSQLInternal c) ∧
    (∀ (s : String) (ps : List String),
       nodeToSQLInternal c = .ok (s, ps) → ps = leafPayload c) := by
  have h := sqlSpec_holds c
  simp only [SQLSpec] at h
  cases h1 : nodeToSQLInternal c with
  | error e =>
    rw [h1] at h
    cases h2 : nodeToSQLInternal (eraseValsOpt c) with
    | error e2 =>
      rw [h2] at h
      exact ⟨by simp [h], fun s ps hab => by simp at hab⟩
    | ok pr =>
      rw [h2] at h
      exact h.elim
  | ok pr =>
    obtain ⟨s, ps⟩ := pr
    rw [h1] at h
    cases h2 : nodeToSQLInternal (eraseValsOpt c) with
    | error e2 =>
      rw [h2] at h
      exact h.elim
    | ok pr2 =>
      obtain ⟨s2, ps2⟩ := pr2
      rw [h2] at h
      refine ⟨by simp [h.1, Except.map], fun s3 ps3 hok => ?_⟩
      have : s3 = s ∧ ps3 = ps := by
        have := hok.symm.trans rfl
        simp [Except.ok.injEq, Prod.mk.injEq] at this
        exact ⟨this.1, this.2⟩
      rw [this.2]
      exact h.2.1

/-- C1 witness: the term node for `name:john` renders parameters equal to its
leaf payload `["john"]`, and erasing the value leaves the fragment unchanged. -/
theorem C1_fragment_value_independent_witness :
    Except.map Prod.fst (nodeToSQLInternal (eraseValsOpt
        (some (Node.mk .term "name" "john" "" "" [] false .exact)))) =
      Except.map Prod.fst (nodeToSQLInternal
        (some (Node.mk .term "name" "john" "" "" [] false .exact))) ∧
    ["john"] = leafPayload (some (Node.mk .term "name" "john" "" "" [] false .exact)) :=
  have h := C1_fragment_value_independent
    (some (Node.mk .term "name" "john" "" "" [] false .exact))
  ⟨h.1, h.2 "name = ?" ["john"] (by
    simp [nodeToSQLInternal, Node.typ, Node.field, Node.value, Node.comparison, ite_self])⟩

/-- C2 counterexample: for the successfully parsed query `name:john` the
compiled fragment is `name = ?`: the field identifier is not quoted (the
fragment contains no double-quote character at all) and the placeholder is `?`
rather than `$1` (the fragment contains no dollar character). -/
theorem C2_counterexample :
    parseToSQL ctxName "name:john".toList = .ok ("name = ?", ["john"]) ∧
    strHasChar "name = ?" (Char.ofNat 34) = false ∧
    strHasChar "name = ?" (Char.ofNat 36) = false := by
  refine ⟨?_, by decide, by decide⟩
  have hp : (runParse ctxName "name:john".toList).1 =
      .ok (some { node := some (Node.mk .term "name" "john" "" "" [] false .exact) }) := by
    rfl
  simp only [parseToSQL]
  rw [if_neg (by decide), hp]
  simp [enhancedNodeToSQL, nodeToSQLInternal,
        Node.typ, Node.field, Node.value, Node.comparison, ite_self, strHasSub, listIsInfix]

/-- C2 (amended): the built-in SQL compiler emits field identifiers verbatim
(unquoted, also for JSONB accessors) with `?` placeholders; provided no
emitted identifier or operator contains a literal `?`, the number of `?`
placeholders equals the number of parameters, in emission order. The separate
PostgreSQL driver quotes every column identifier except those already
containing the JSONB accessor `->>`, and `convertToPostgresPlaceholders`
rewrites the k-th `?` of the fragment to `$k`, so the `$n` numbers follow
fragment order. -/
theorem C2_placeholder_discipline :
    (∀ (c : Option Node) (s : String) (ps : List String),
       cleanQ c = true → nodeToSQLInternal c = .ok (s, ps) → countQ s = ps.length) ∧
    (∀ ident : String,
       serializeColumn (.col ident) =
         .ok (if isJSONBSyntax ident then ident else quoteIdent ident, [])) ∧
    (∀ f2 v2 cmp2 : String,
       nodeToSQLInternal (some (Node.mk .term f2 v2 "" cmp2 [] false .exact)) =
         .ok (f2 ++ " " ++ (if (cmp2 == "") = true then "=" else cmp2) ++ " ?", [v2])) ∧
    (∀ (k : Nat) (a b : List Char),
       convertFrom k (a ++ '?' :: b) =
         convertFrom k a ++ "$" ++ toString (k + a.count '?') ++
           convertFrom (k + a.count '?' + 1) b) := by
  refine ⟨?_, ?_, ?_, convertFrom_append_q⟩
  · intro c s ps hcl h1
    have h := sqlSpec_holds c
    simp only [SQLSpec] at h
    rw [h1] at h
    cases h2 : nodeToSQLInternal (eraseValsOpt c) with
    | error e =>
      rw [h2] at h
      exact h.elim
    | ok pr =>
      obtain ⟨s2, ps2⟩ := pr
      rw [h2] at h
      exact h.2.2.2 hcl
  · intro ident
    by_cases hi : isJSONBSyntax ident = true <;> simp [serializeColumn, hi]
  · intro f2 v2 cmp2
    simp [nodeToSQLInternal, Node.typ, Node.field, Node.value, Node.comparison, ite_self]

/-- C2 witness: the `name:john` term node has one `?` and one parameter; the
driver quotes `name`; the conversion numbers two placeholders `$1`, `$2`. -/
theorem C2_placeholder_discipline_witness :
    countQ "name = ?" = ["john"].length ∧
    serializeColumn (.col "name") =
      .ok (if isJSONBSyntax "name" then "name" else quoteIdent "name", []) ∧
    convertToPostgresPlaceholders "a = ? AND b = ?" = "a = $1 AND b = $2" := by
  have h := C2_placeholder_discipline
  refine ⟨?_, h.2.1 "name", ?_⟩
  · exact h.1 (some (Node.mk .term "name" "john" "" "" [] false .exact)) "name = ?" ["john"]
      (by simp [cleanQ, Node.typ, Node.field, Node.comparison, strHasChar])
      (by simp [nodeToSQLInternal, Node.typ, Node.field, Node.value, Node.comparison, ite_self])
  · decide

theorem bumpTerm_ok (ctx : PCtx) (s : PState) (h : s.termCount + 1 ≤ ctx.maxTerms) :
    bumpTerm ctx s = (.ok (), { s with termCount := s.termCount + 1 }) := by
  simp only [bumpTerm]
  rw [if_neg (by omega)]

theorem implicitChildren_ok (ctx : PCtx) (t : String) :
    ∀ (fields : List FieldInfo) (s : PState),
      s.termCount + fields.length ≤ ctx.maxTerms →
      implicitChildren ctx t fields s =
        (.ok (fields.map (fun f => some (mkImplicitChild ctx t f))),
         { s with termCount := s.termCount + fields.length })
  | [], s, h => by
    simp [implicitChildren, purePM, pure]
  | f :: rest, s, h => by
    have hb := bumpTerm_ok ctx s (by simp at h; omega)
    have ih := implicitChildren_ok ctx t rest { s with termCount := s.termCount + 1 }
      (by simp at h ⊢; omega)
    show bindPM (bumpTerm ctx)
        (fun _ => bindPM (implicitChildren ctx t rest)
          (fun rest2 => purePM (some (mkImplicitChild ctx t f) :: rest2))) s =
      _
    simp only [bindPM, hb, ih, purePM]
    have harith : s.termCount + 1 + rest.length = s.termCount + (rest.length + 1) := by omega
    simp [harith, List.length_cons]

theorem classifyImplicit_wildcard (t : String) :
    (classifyImplicitValue t).1 = NodeT.wildcard := by
  simp only [classifyImplicitValue]
  split_ifs <;> rfl

theorem mkImplicitChild_compiles (ctx : PCtx) (t : String) (f : FieldInfo) :
    ∃ frag param,
      nodeToSQLInternal (some (mkImplicitChild ctx t f)) = .ok (frag, [param]) ∧
      frag ≠ "" := by
  rcases hx : classifyImplicitValue t with ⟨nt0, mt0, pv0⟩
  have hnt : nt0 = NodeT.wildcard := by
    have := classifyImplicit_wildcard t
    rw [hx] at this
    exact this
  subst hnt
  have hmk : mkImplicitChild ctx t f =
      Node.mk .wildcard (formatFieldName ctx.defaultFields f.name) pv0 "" "" [] false mt0 := by
    simp only [mkImplicitChild, hx]
  rw [hmk]
  by_cases hs : strHasSub (formatFieldName ctx.defaultFields f.name) "->>" = true
  · refine ⟨formatFieldName ctx.defaultFields f.name ++ " ILIKE ?",
            wildcardToPattern pv0 mt0, ?_, ?_⟩
    · simp [nodeToSQLInternal, Node.typ, Node.field, Node.value, Node.matchType, hs]
    · exact append_ne_empty_right _ _ (by decide)
  · refine ⟨formatFieldName ctx.defaultFields f.name ++ "::text ILIKE ?",
            wildcardToPattern pv0 mt0, ?_, ?_⟩
    · simp [nodeToSQLInternal, Node.typ, Node.field, Node.value, Node.matchType, hs]
    · exact append_ne_empty_right _ _ (by decide)

theorem childrenToSQL_implicit (ctx : PCtx) (t : String) :
    ∀ fields : List FieldInfo,
      ∃ parts params,
        childrenToSQL (fields.map (fun f => some (mkImplicitChild ctx t f))) =
          .ok (parts, params) ∧
        parts.length = fields.length ∧ params.length = fields.length
  | [] => ⟨[], [], by simp [childrenToSQL], rfl, rfl⟩
  | f :: rest => by
    obtain ⟨frag, param, hc, hne⟩ := mkImplicitChild_compiles ctx t f
    obtain ⟨parts, params, hr, hl1, hl2⟩ := childrenToSQL_implicit ctx t rest
    refine ⟨frag :: parts, param :: params, ?_, by simp [hl1], by simp [hl2]⟩
    simp only [List.map_cons, childrenToSQL, hc, hr]
    rw [if_neg (by simp [hne])]
    simp

/-- C6: a bare term with no field prefix fails with the no-default-fields
semantic error when zero default fields are configured; otherwise it expands
to a logical OR with exactly one child per default field, consuming one unit
of the term budget per field, and compiling that OR against N default fields
yields exactly N parameters, with an N-way OR-joined fragment when N is at
least 2. -/
theorem C6_implicit_search (ctx : PCtx) (t : String) (s : PState) :
    (ctx.defaultFields = [] → createImplicitSearch ctx t s = (.error .noDefaultFields, s)) ∧
    (ctx.defaultFields ≠ [] →
     s.termCount + ctx.defaultFields.length ≤ ctx.maxTerms →
     ∃ children : List (Option Node),
       createImplicitSearch ctx t s =
         (.ok { node := some (Node.mk .logical "" "" "OR" "" children false .exact) },
          { s with termCount := s.termCount + ctx.defaultFields.length }) ∧
       children.length = ctx.defaultFields.length ∧
       (∃ (sqlFrag : String) (params : List String),
         nodeToSQLInternal (some (Node.mk .logical "" "" "OR" "" children false .exact)) =
           .ok (sqlFrag, params) ∧
         params.length = ctx.defaultFields.length ∧
         (2 ≤ ctx.defaultFields.length →
           ∃ parts : List String, parts.length = ctx.defaultFields.length ∧
             sqlFrag = "(" ++ sepJoin (" " ++ "OR" ++ " ") parts ++ ")"))) := by
  constructor
  · intro hemp
    simp only [createImplicitSearch]
    rw [hemp]
    rfl
  · intro hne hbudget
    refine ⟨ctx.defaultFields.map (fun f => some (mkImplicitChild ctx t f)), ?_, by simp, ?_⟩
    · simp only [createImplicitSearch]
      rw [if_neg (by simp [hne])]
      show bindPM (implicitChildren ctx t ctx.defaultFields)
        (fun children => purePM
          ({ node := some (Node.mk .logical "" "" "OR" "" children false .exact) } :
            EnhancedNode)) s = _
      simp only [bindPM, purePM, implicitChildren_ok ctx t ctx.defaultFields s hbudget]
    · obtain ⟨parts, params, hc, hl1, hl2⟩ := childrenToSQL_implicit ctx t ctx.defaultFields
      have hred : nodeToSQLInternal (some (Node.mk .logical "" "" "OR" ""
          (ctx.defaultFields.map (fun f => some (mkImplicitChild ctx t f))) false .exact)) =
          (if parts.isEmpty = true then Except.ok ("", [])
           else if ("OR" == "NOT") = true then
             match parts with
             | [p] => Except.ok ("NOT (" ++ p ++ ")", params)
             | _ => Except.ok ("(" ++ sepJoin " AND "
                      (parts.map (fun p => "NOT (" ++ p ++ ")")) ++ ")", params)
           else
             match parts with
             | [p] => Except.ok (p, params)
             | _ => Except.ok ("(" ++ sepJoin ((" " ++
                      (if false = true then "NOT " ++ "OR" else "OR")) ++ " ") parts ++ ")",
                    params)) := by
        simp only [nodeToSQLInternal, Node.typ, Node.children, Node.operator, Node.negate, hc]
      cases hp : parts with
      | nil =>
        rw [hp] at hl1
        exact absurd hl1.symm (by simpa using hne)
      | cons p rest =>
        rw [hp] at hred hl1
        rw [if_neg (by simp), if_neg (by decide)] at hred
        cases rest with
        | nil =>
          refine ⟨p, params, by rw [hred], hl2, ?_⟩
          intro h2
          rw [← hl1] at h2
          simp at h2
        | cons q rest2 =>
          refine ⟨"(" ++ sepJoin ((" " ++ (if false = true then "NOT " ++ "OR" else "OR")) ++ " ")
              (p :: q :: rest2) ++ ")", params, by rw [hred], hl2, ?_⟩
          intro _
          exact ⟨p :: q :: rest2, hl1, by rw [if_neg (by decide)]⟩

/-- Three default-searchable fields for the C6 witness. -/
def ctx3 : PCtx :=
  { defaultFields := [⟨"name", false⟩, ⟨"email", false⟩, ⟨"bio", false⟩] }

/-- C6 witness: the implicit query `john` against three default-searchable
fields expands to a 3-child OR whose compilation has exactly 3 parameters and
a 3-way OR-joined fragment. -/
theorem C6_implicit_search_witness :
    ∃ children : List (Option Node),
      createImplicitSearch ctx3 "john" (initPState []) =
        (.ok { node := some (Node.mk .logical "" "" "OR" "" children false .exact) },
         { initPState [] with
             termCount := (initPState []).termCount + ctx3.defaultFields.length }) ∧
      children.length = ctx3.defaultFields.length ∧
      (∃ (sqlFrag : String) (params : List String),
        nodeToSQLInternal (some (Node.mk .logical "" "" "OR" "" children false .exact)) =
          .ok (sqlFrag, params) ∧
        params.length = ctx3.defaultFields.length ∧
        (2 ≤ ctx3.defaultFields.length →
          ∃ parts : List String, parts.length = ctx3.defaultFields.length ∧
            sqlFrag = "(" ++ sepJoin (" " ++ "OR" ++ " ") parts ++ ")")) :=
  (C6_implicit_search ctx3 "john" (initPState [])).2 (by decide) (by decide)

/-! ## Term-budget accounting (claim C7 infrastructure) -/

/-- The invariant every parser computation preserves about the term counter:
from a state within budget, either the result is a `tooManyTerms` error whose
count is the final counter, exactly one past the limit, or the final counter
is still within budget. -/
def TermsOutcome {α : Type} (ctx : PCtx) (r : Except PErr α) (s2 : PState) : Prop :=
  match r with
  | .error (.tooManyTerms c mx) =>
    c = s2.termCount ∧ mx = ctx.maxTerms ∧ s2.termCount = ctx.maxTerms + 1
  | _ => s2.termCount ≤ ctx.maxTerms

/-- A parser computation respects the term budget. -/
def TermsOK {α : Type} (ctx : PCtx) (m : PM α) : Prop :=
  ∀ s : PState, s.termCount ≤ ctx.maxTerms → TermsOutcome ctx (m s).1 (m s).2

theorem termsOK_pure {α : Type} {ctx : PCtx} (a : α) : TermsOK ctx (pure a) :=
  fun _ hs => hs

theorem termsOK_getCur {ctx : PCtx} : TermsOK ctx getCur :=
  fun _ hs => hs

theorem termsOK_advance {ctx : PCtx} : TermsOK ctx advance :=
  fun _ hs => hs

theorem termsOK_throw {α : Type} {ctx : PCtx} (e : PErr)
    (he : ∀ c mx, e ≠ .tooManyTerms c mx) : TermsOK ctx (throwP (α := α) e) := by
  intro s hs
  show TermsOutcome ctx (.error e) s
  match e with
  | .tooManyTerms c mx => exact absurd rfl (he c mx)
  | .queryTooLong _ _ => exact hs
  | .tooDeep _ _ => exact hs
  | .unexpectedToken _ => exact hs
  | .noDefaultFields => exact hs
  | .unsupportedNodeType => exact hs
  | .nilCompareErr => exact hs
  | .nilValueErr => exact hs
  | .boostUnsupported => exact hs
  | .fuzzyShape => exact hs
  | .bothBoundsWild => exact hs
  | .invalidRangeStructure => exact hs
  | .outOfFuel => exact hs
  | .externalBase => exact hs
  | .unsupportedOperator => exact hs
  | .binaryOperandMissing => exact hs
  | .unexpectedColumnType => exact hs

theorem termsOK_bumpTerm {ctx : PCtx} : TermsOK ctx (bumpTerm ctx) := by
  intro s hs
  show TermsOutcome ctx (bumpTerm ctx s).1 (bumpTerm ctx s).2
  simp only [bumpTerm]
  by_cases h : ctx.maxTerms < s.termCount + 1
  · rw [if_pos h]
    refine ⟨rfl, rfl, ?_⟩
    show s.termCount + 1 = ctx.maxTerms + 1
    omega
  · rw [if_neg h]
    show s.termCount + 1 ≤ ctx.maxTerms
    omega

theorem termsOutcome_error_cast {α β : Type} {ctx : PCtx} {e : PErr} {s2 : PState}
    (h : TermsOutcome ctx (.error e : Except PErr α) s2) :
    TermsOutcome ctx (.error e : Except PErr β) s2 := by
  cases e <;> exact h

theorem termsOK_bind {α β : Type} {ctx : PCtx} {m : PM α} {f : α → PM β}
    (hm : TermsOK ctx m) (hf : ∀ a, TermsOK ctx (f a)) : TermsOK ctx (m >>= f) := by
  intro s hs
  show TermsOutcome ctx (bindPM m f s).1 (bindPM m f s).2
  have h1 := hm s hs
  rcases hm2 : m s with ⟨r, s2⟩
  rw [hm2] at h1
  rcases r with e | a
  · simp only [bindPM, hm2]
    exact termsOutcome_error_cast (by simpa only [] using h1)
  · simp only [bindPM, hm2]
    exact hf a s2 (by simpa only [] using h1)

theorem termsOK_ite {α : Type} {ctx : PCtx} (c : Prop) [Decidable c] {m1 m2 : PM α}
    (h1 : TermsOK ctx m1) (h2 : TermsOK ctx m2) :
    TermsOK ctx (if c then m1 else m2) := by
  by_cases hc : c
  · rw [if_pos hc]; exact h1
  · rw [if_neg hc]; exact h2

theorem termsOK_parsePhrase (ctx : PCtx) : TermsOK ctx (parsePhrase ctx) := by
  unfold parsePhrase
  repeat'
    first
    | with_reducible refine termsOK_bind ?_ (fun a => ?_)
    | with_reducible refine termsOK_ite _ ?_ ?_
    | with_reducible exact termsOK_bumpTerm
    | with_reducible exact termsOK_advance
    | with_reducible exact termsOK_getCur
    | with_reducible exact termsOK_pure _
    | with_reducible exact termsOK_throw _ (fun c mx h => PErr.noConfusion h)
    | simp only []

theorem termsOK_parseRange (ctx : PCtx) (field : String) :
    TermsOK ctx (parseRange ctx field) := by
  unfold parseRange
  repeat'
    first
    | with_reducible refine termsOK_bind ?_ (fun a => ?_)
    | with_reducible refine termsOK_ite _ ?_ ?_
    | with_reducible exact termsOK_bumpTerm
    | with_reducible exact termsOK_advance
    | with_reducible exact termsOK_getCur
    | with_reducible exact termsOK_pure _
    | with_reducible exact termsOK_throw _ (fun c mx h => PErr.noConfusion h)
    | simp only []

theorem termsOK_valueLoop (ctx : PCtx) :
    ∀ fuel v, TermsOK ctx (valueLoop fuel v) := by
  intro fuel
  induction fuel with
  | zero =>
    intro v
    exact termsOK_throw _ (fun c mx h => PErr.noConfusion h)
  | succ f ih =>
    intro v
    unfold valueLoop
    repeat'
    first
    | with_reducible refine termsOK_bind ?_ (fun a => ?_)
    | with_reducible refine termsOK_ite _ ?_ ?_
    | with_reducible exact termsOK_advance
    | with_reducible exact termsOK_getCur
    | with_reducible exact termsOK_pure _
    | with_reducible exact ih _
    | simp only []

theorem termsOK_implicitChildren (ctx : PCtx) (t : String) :
    ∀ fs, TermsOK ctx (implicitChildren ctx t fs) := by
  intro fs
  induction fs with
  | nil => exact termsOK_pure _
  | cons f rest ih =>
    unfold implicitChildren
    repeat'
    first
    | with_reducible refine termsOK_bind ?_ (fun a => ?_)
    | with_reducible exact termsOK_bumpTerm
    | with_reducible exact termsOK_pure _
    | with_reducible exact ih
    | simp only []

theorem termsOK_createImplicitSearch (ctx : PCtx) (t : String) :
    TermsOK ctx (createImplicitSearch ctx t) := by
  unfold createImplicitSearch
  repeat'
    first
    | with_reducible refine termsOK_bind ?_ (fun a => ?_)
    | with_reducible refine termsOK_ite _ ?_ ?_
    | with_reducible exact termsOK_pure _
    | with_reducible exact termsOK_implicitChildren ctx t _
    | with_reducible exact termsOK_throw _ (fun c mx h => PErr.noConfusion h)
    | simp only []

set_option maxHeartbeats 1600000 in
theorem termsOK_parseTerm (ctx : PCtx) (fuel : Nat) :
    TermsOK ctx (parseTerm ctx fuel) := by
  unfold parseTerm
  repeat'
    first
    | with_reducible refine termsOK_bind ?_ (fun a => ?_)
    | with_reducible refine termsOK_ite _ ?_ ?_
    | with_reducible exact termsOK_bumpTerm
    | with_reducible exact termsOK_advance
    | with_reducible exact termsOK_getCur
    | with_reducible exact termsOK_pure _
    | with_reducible exact termsOK_parseRange ctx _
    | with_reducible exact termsOK_createImplicitSearch ctx _
    | with_reducible exact termsOK_implicitChildren ctx _ _
    | with_reducible exact termsOK_valueLoop ctx fuel _
    | with_reducible exact termsOK_throw _ (fun c mx h => PErr.noConfusion h)
    | simp only []

set_option maxHeartbeats 1600000 in
theorem termsOK_grammar (ctx : PCtx) :
    ∀ f : Nat,
      (∀ d, TermsOK ctx (parseExpressionWithDepth ctx f d)) ∧
      (∀ d, TermsOK ctx (parseOrWithDepth ctx f d)) ∧
      (∀ d left, TermsOK ctx (orLoop ctx f d left)) ∧
      (∀ d, TermsOK ctx (parseAndWithDepth ctx f d)) ∧
      (∀ d left, TermsOK ctx (andLoop ctx f d left)) ∧
      (∀ d, TermsOK ctx (parseUnaryWithDepth ctx f d)) ∧
      (∀ d, TermsOK ctx (parsePrimaryWithDepth ctx f d)) := by
  intro f
  induction f with
  | zero =>
    refine ⟨fun d => ?_, fun d => ?_, fun d left => ?_, fun d => ?_,
            fun d left => ?_, fun d => ?_, fun d => ?_⟩ <;>
      exact termsOK_throw _ (fun c mx h => PErr.noConfusion h)
  | succ f ih =>
    obtain ⟨ihE, ihO, ihOL, ihA, ihAL, ihU, ihP⟩ := ih
    refine ⟨fun d => ?_, fun d => ?_, fun d left => ?_, fun d => ?_,
            fun d left => ?_, fun d => ?_, fun d => ?_⟩
    · unfold parseExpressionWithDepth
      repeat'
        first
        | with_reducible refine termsOK_ite _ ?_ ?_
        | with_reducible exact ihO _
        | with_reducible exact termsOK_throw _ (fun c mx h => PErr.noConfusion h)
    · unfold parseOrWithDepth
      repeat'
        first
        | with_reducible refine termsOK_bind ?_ (fun a => ?_)
        | with_reducible exact ihA _
        | with_reducible exact ihOL _ _
    · unfold orLoop
      repeat'
        first
        | with_reducible refine termsOK_bind ?_ (fun a => ?_)
        | with_reducible refine termsOK_ite _ ?_ ?_
        | with_reducible exact termsOK_advance
        | with_reducible exact termsOK_getCur
        | with_reducible exact termsOK_pure _
        | with_reducible exact ihA _
        | with_reducible exact ihOL _ _
        | simp only []
    · unfold parseAndWithDepth
      repeat'
        first
        | with_reducible refine termsOK_bind ?_ (fun a => ?_)
        | with_reducible exact ihU _
        | with_reducible exact ihAL _ _
    · unfold andLoop
      repeat'
        first
        | with_reducible refine termsOK_bind ?_ (fun a => ?_)
        | with_reducible refine termsOK_ite _ ?_ ?_
        | with_reducible exact termsOK_advance
        | with_reducible exact termsOK_getCur
        | with_reducible exact termsOK_pure _
        | with_reducible exact ihU _
        | with_reducible exact ihAL _ _
        | simp only []
    · unfold parseUnaryWithDepth
      repeat'
        first
        | with_reducible refine termsOK_bind ?_ (fun a => ?_)
        | with_reducible refine termsOK_ite _ ?_ ?_
        | with_reducible exact termsOK_advance
        | with_reducible exact termsOK_getCur
        | with_reducible exact termsOK_pure _
        | with_reducible exact ihP _
        | simp only []
    · unfold parsePrimaryWithDepth
      repeat'
        first
        | with_reducible exact termsOK_parsePhrase ctx
        | with_reducible exact termsOK_parseTerm ctx _
        | with_reducible refine termsOK_bind ?_ (fun a => ?_)
        | with_reducible refine termsOK_ite _ ?_ ?_
        | with_reducible exact termsOK_advance
        | with_reducible exact termsOK_getCur
        | with_reducible exact termsOK_pure _
        | with_reducible exact ihE _
        | with_reducible exact termsOK_throw _ (fun c mx h => PErr.noConfusion h)
        | simp only []

/-- The term-budget invariant holds of a full parse from the initial state. -/
theorem termsOutcome_runParse (ctx : PCtx) (q : List Char) :
    TermsOutcome ctx (runParse ctx q).1 (runParse ctx q).2 := by
  simp only [runParse]
  by_cases h : (trimSpaceL q).isEmpty
  · rw [if_pos h]
    show (initPState (trimSpaceL q)).termCount ≤ ctx.maxTerms
    exact Nat.zero_le _
  · rw [if_neg h]
    have hOK : TermsOK ctx
        (advance >>= fun _ => advance >>= fun _ =>
          parseExpressionWithDepth ctx (fuelFor ctx (trimSpaceL q)) 0) := by
      refine termsOK_bind termsOK_advance (fun _ => ?_)
      refine termsOK_bind termsOK_advance (fun _ => ?_)
      exact (termsOK_grammar ctx _).1 _
    have hout := hOK (initPState (trimSpaceL q)) (Nat.zero_le _)
    rcases hr : (advance >>= fun _ => advance >>= fun _ =>
          parseExpressionWithDepth ctx (fuelFor ctx (trimSpaceL q)) 0)
        (initPState (trimSpaceL q)) with ⟨r, s⟩
    rw [hr] at hout
    rcases r with e | en
    · exact termsOutcome_error_cast (by simpa only [] using hout)
    · simpa only [] using hout

/-- The computation changes the term counter by exactly `n` on every path,
success or failure. -/
def CountDelta {α : Type} (n : Nat) (m : PM α) : Prop :=
  ∀ s : PState, (m s).2.termCount = s.termCount + n

theorem countDelta_pure {α : Type} (a : α) : CountDelta 0 (pure a) :=
  fun _ => rfl

theorem countDelta_getCur : CountDelta 0 getCur :=
  fun _ => rfl

theorem countDelta_advance : CountDelta 0 advance :=
  fun _ => rfl

theorem countDelta_throw {α : Type} (e : PErr) : CountDelta 0 (throwP (α := α) e) :=
  fun _ => rfl

theorem countDelta_bumpTerm (ctx : PCtx) : CountDelta 1 (bumpTerm ctx) := by
  intro s
  show (bumpTerm ctx s).2.termCount = s.termCount + 1
  simp only [bumpTerm]
  by_cases h : ctx.maxTerms < s.termCount + 1
  · rw [if_pos h]
  · rw [if_neg h]

theorem countDelta_bind {α β : Type} {n : Nat} {m : PM α} {f : α → PM β}
    (hm : CountDelta n m) (hf : ∀ a, CountDelta 0 (f a)) :
    CountDelta n (m >>= f) := by
  intro s
  show (bindPM m f s).2.termCount = s.termCount + n
  have h1 := hm s
  rcases hm2 : m s with ⟨r, s2⟩
  rw [hm2] at h1
  rcases r with e | a
  · simp only [bindPM, hm2]
    simpa only [] using h1
  · simp only [bindPM, hm2]
    have h2 := hf a s2
    simp only [] at h1
    omega

theorem countDelta_ite {α : Type} {n : Nat} (c : Prop) [Decidable c] {m1 m2 : PM α}
    (h1 : CountDelta n m1) (h2 : CountDelta n m2) :
    CountDelta n (if c then m1 else m2) := by
  by_cases hc : c
  · rw [if_pos hc]; exact h1
  · rw [if_neg hc]; exact h2

theorem countDelta_parsePhrase (ctx : PCtx) : CountDelta 1 (parsePhrase ctx) := by
  unfold parsePhrase
  refine countDelta_bind (countDelta_bumpTerm ctx) (fun a => ?_)
  repeat'
    first
    | with_reducible refine countDelta_bind ?_ (fun a => ?_)
    | with_reducible refine countDelta_ite _ ?_ ?_
    | with_reducible exact countDelta_advance
    | with_reducible exact countDelta_getCur
    | with_reducible exact countDelta_pure _
    | with_reducible exact countDelta_throw _
    | simp only []

theorem countDelta_parseRange (ctx : PCtx) (field : String) :
    CountDelta 1 (parseRange ctx field) := by
  unfold parseRange
  refine countDelta_bind (countDelta_bumpTerm ctx) (fun a => ?_)
  repeat'
    first
    | with_reducible refine countDelta_bind ?_ (fun a => ?_)
    | with_reducible refine countDelta_ite _ ?_ ?_
    | with_reducible exact countDelta_advance
    | with_reducible exact countDelta_getCur
    | with_reducible exact countDelta_pure _
    | with_reducible exact countDelta_throw _
    | simp only []

/-- A successful implicit-field expansion adds exactly one count per field. -/
theorem implicitChildren_count (ctx : PCtx) (t : String) :
    ∀ (fs : List FieldInfo) (s : PState) (r : List (Option Node)) (s2 : PState),
      implicitChildren ctx t fs s = (.ok r, s2) →
      s2.termCount = s.termCount + fs.length := by
  intro fs
  induction fs with
  | nil =>
    intro s r s2 hok
    show s2.termCount = s.termCount + 0
    have h2 : ((.ok [], s) : Except PErr (List (Option Node)) × PState) = (.ok r, s2) := hok
    rw [Prod.mk.injEq] at h2
    rw [← h2.2]
    omega
  | cons f rest ih =>
    intro s r s2 hok
    show s2.termCount = s.termCount + (rest.length + 1)
    rw [show implicitChildren ctx t (f :: rest) =
          bindPM (bumpTerm ctx) (fun _ =>
            bindPM (implicitChildren ctx t rest) (fun rest2 =>
              purePM (some (mkImplicitChild ctx t f) :: rest2))) from rfl] at hok
    rcases hb : bumpTerm ctx s with ⟨rb, sb⟩
    have hbd := countDelta_bumpTerm ctx s
    rw [hb] at hbd
    simp only [bindPM, hb] at hok
    rcases rb with e | u
    · exact absurd hok (by simp)
    · simp only [] at hok
      rcases hc : implicitChildren ctx t rest sb with ⟨rc, sc⟩
      rw [hc] at hok
      rcases rc with e | cs
      · exact absurd hok (by simp)
      · have hcount := ih sb cs sc hc
        simp only [purePM, Prod.mk.injEq] at hok
        obtain ⟨-, hs2⟩ := hok
        subst hs2
        simp only [] at hbd
        omega

/-- A successful implicit search adds exactly one count per default field. -/
theorem createImplicitSearch_count (ctx : PCtx) (t : String)
    (s : PState) (en : EnhancedNode) (s2 : PState)
    (hok : createImplicitSearch ctx t s = (.ok en, s2)) :
    s2.termCount = s.termCount + ctx.defaultFields.length := by
  rcases hfs : ctx.defaultFields with _ | ⟨f, rest⟩
  · rw [show createImplicitSearch ctx t s = (.error .noDefaultFields, s) from by
        simp only [createImplicitSearch]; rw [hfs]; rfl] at hok
    exact absurd hok (by simp)
  · have hred : createImplicitSearch ctx t s =
        bindPM (implicitChildren ctx t ctx.defaultFields) (fun children =>
          purePM ({ node := some (Node.mk .logical "" "" "OR" "" children false .exact) }
            : EnhancedNode)) s := by
      simp only [createImplicitSearch]
      rw [hfs]
      rfl
    rw [hred] at hok
    rcases hc : implicitChildren ctx t ctx.defaultFields s with ⟨rc, sc⟩
    simp only [bindPM, hc] at hok
    rcases rc with e | cs
    · exact absurd hok (by simp)
    · have hcount := implicitChildren_count ctx t ctx.defaultFields s cs sc hc
      simp only [purePM, Prod.mk.injEq] at hok
      obtain ⟨-, hs2⟩ := hok
      subst hs2
      have hlen : ctx.defaultFields.length = (f :: rest).length := by rw [hfs]
      omega

/-- C7: for every query, parsing fails with the term-count-exceeded error if
and only if the number of leaf terms produced exceeds `maxTerms` (the final
term counter, which the error reports verbatim, stops exactly one past the
limit, so a query producing exactly `maxTerms` terms succeeds); a quoted
phrase and a range each count exactly one term on every path, and an implicit
search across the default fields counts exactly one term per default field. -/
theorem C7_term_limit (ctx : PCtx) (q : List Char) :
    ((∃ c mx, (runParse ctx q).1 = .error (.tooManyTerms c mx)) ↔
        ctx.maxTerms < (runParse ctx q).2.termCount) ∧
    (∀ c mx, (runParse ctx q).1 = .error (.tooManyTerms c mx) →
        c = (runParse ctx q).2.termCount ∧ mx = ctx.maxTerms ∧
        (runParse ctx q).2.termCount = ctx.maxTerms + 1) ∧
    (∀ s, (parsePhrase ctx s).2.termCount = s.termCount + 1) ∧
    (∀ fld s, (parseRange ctx fld s).2.termCount = s.termCount + 1) ∧
    (∀ t s en s2, createImplicitSearch ctx t s = (.ok en, s2) →
        s2.termCount = s.termCount + ctx.defaultFields.length) := by
  have h := termsOutcome_runParse ctx q
  refine ⟨⟨?_, ?_⟩, ?_, ?_, ?_, ?_⟩
  · rintro ⟨c, mx, hc⟩
    rw [hc] at h
    simp only [TermsOutcome] at h
    omega
  · intro hlt
    rcases hres : (runParse ctx q).1 with e | en
    · rw [hres] at h
      cases e
      case tooManyTerms c mx => exact ⟨c, mx, rfl⟩
      all_goals simp only [TermsOutcome] at h
      all_goals exact absurd hlt (by omega)
    · rw [hres] at h
      simp only [TermsOutcome] at h
      exact absurd hlt (by omega)
  · intro c mx hc
    rw [hc] at h
    simp only [TermsOutcome] at h
    exact h
  · intro s
    exact countDelta_parsePhrase ctx s
  · intro fld s
    exact countDelta_parseRange ctx fld s
  · intro t s en s2 hok
    exact createImplicitSearch_count ctx t s en s2 hok

/-- Context for the C7 witness: one default field and a budget of two terms. -/
def ctxC7 : PCtx := { defaultFields := [⟨"name", false⟩], maxTerms := 2 }

/-- The enhanced node produced by the C7 witness implicit search. -/
def enC7 : EnhancedNode :=
  { node := some (Node.mk .logical "" "" "OR" ""
      [some (mkImplicitChild ctxC7 "john" ⟨"name", false⟩)] false .exact) }

/-- The parser state after the C7 witness implicit search. -/
def stC7 : PState := { initPState [] with termCount := 1 }

/-- C7 witness: with a budget of two terms, `a AND b AND c` (three implicit
leaf terms) fails with `tooManyTerms 3 2` and a final counter of three; a
phrase, a range and a one-field implicit search each count one term. -/
theorem C7_term_limit_witness :
    2 < (runParse ctxC7 ("a AND b AND c".toList)).2.termCount ∧
    ((3 : Nat) = (runParse ctxC7 ("a AND b AND c".toList)).2.termCount ∧
      (2 : Nat) = ctxC7.maxTerms ∧
      (runParse ctxC7 ("a AND b AND c".toList)).2.termCount = ctxC7.maxTerms + 1) ∧
    (parsePhrase ctxC7 (initPState [])).2.termCount = (initPState []).termCount + 1 ∧
    (parseRange ctxC7 "age" (initPState [])).2.termCount = (initPState []).termCount + 1 ∧
    stC7.termCount = (initPState []).termCount + ctxC7.defaultFields.length :=
  ⟨(C7_term_limit ctxC7 ("a AND b AND c".toList)).1.mp ⟨3, 2, rfl⟩,
   (C7_term_limit ctxC7 ("a AND b AND c".toList)).2.1 3 2 rfl,
   (C7_term_limit ctxC7 ("a AND b AND c".toList)).2.2.1 (initPState []),
   (C7_term_limit ctxC7 ("a AND b AND c".toList)).2.2.2.1 "age" (initPState []),
   (C7_term_limit ctxC7 ("a AND b AND c".toList)).2.2.2.2 "john" (initPState []) enC7 stC7 rfl⟩
end MagicLucene
